import Mathlib

/-!
Shallow embedding of the semantic-analysis core of the vscode-looker
language server (src/workspace-tools/ast-types.ts, ast-parser.ts,
src/language-server/workspace.ts, reference-provider.ts
SemanticAnalyzer, semantic-model.ts, diagnostics-provider.ts, and the
position-scoped query surface of the providers).

Modelling conventions:
  * TypeScript Record maps (keyed by construct name, values carrying the
    same name) are embedded as Lean lists of nodes in insertion order;
    Object.values enumeration order is the list order.
  * JS Map objects are embedded as association lists with JS Map
    semantics: set updates an existing key in place, get scans for the
    key; insertion order is preserved.
  * Optional TS fields become Option; a missing field is none.  JS
    truthiness tests on strings are embedded as a none-or-empty test.
  * The external lookml-parser is a black box; parseContent is embedded
    as a function of the external outcome (an AST on success, the thrown
    error message on failure).
  * WeakMap nodeToSymbol and rawTokens are not observable by any claim
    and are omitted; a Symbol parent back-reference is embedded as the
    parent symbol key.
-/

namespace LookML

/-- Source range of an AST node (ast-types.ts Position): zero-indexed
start and end line/character. -/
structure Position where
  startLine : Nat
  startChar : Nat
  endLine : Nat
  endChar : Nat
deriving DecidableEq, Repr

/-- The all-zero Position used by the AST builder when position metadata
is missing. -/
def Position.zero : Position := ⟨0, 0, 0, 0⟩

/-- Parameter values (ast-types.ts ParameterValue): scalar, nested
object with a type tag, or an array. -/
inductive ParameterValue where
  | str : String → ParameterValue
  | num : Int → ParameterValue
  | bool : Bool → ParameterValue
  | obj : String → Position → List (String × ParameterValue) → ParameterValue
  | arr : List ParameterValue → ParameterValue

/-- Association list with JS Map semantics for get. -/
def mapGet {α : Type} : List (String × α) → String → Option α
  | [], _ => none
  | (k, v) :: rest, key => if k = key then some v else mapGet rest key

/-- Association list with JS Map semantics for set: update in place when
the key exists, append otherwise. -/
def mapSet {α : Type} : List (String × α) → String → α → List (String × α)
  | [], key, v => [(key, v)]
  | (k, w) :: rest, key, v =>
      if k = key then (key, v) :: rest else (k, w) :: mapSet rest key v

/-- ast-types.ts DimensionNode. -/
structure DimensionNode where
  name : String
  position : Position
  parameters : List (String × ParameterValue)
  dataType : Option String
  sql : Option String
  hidden : Bool
  primaryKey : Bool

/-- ast-types.ts MeasureNode. -/
structure MeasureNode where
  name : String
  position : Position
  parameters : List (String × ParameterValue)
  measureType : Option String
  sql : Option String
  hidden : Bool
  drillFields : Option (List String)

/-- ast-types.ts FilterNode. -/
structure FilterNode where
  name : String
  position : Position
  parameters : List (String × ParameterValue)
  filterType : Option String
  defaultValue : Option String

/-- ast-types.ts ParameterNode (allowedValues kept as a raw
ParameterValue object). -/
structure ParameterNode where
  name : String
  position : Position
  parameters : List (String × ParameterValue)
  parameterType : Option String
  defaultValue : Option String
  allowedValues : Option ParameterValue

/-- ast-types.ts DimensionGroupNode. -/
structure DimensionGroupNode where
  name : String
  position : Position
  parameters : List (String × ParameterValue)
  groupType : Option String
  sql : Option String
  timeframes : Option (List String)

/-- ast-types.ts JoinNode. -/
structure JoinNode where
  name : String
  position : Position
  parameters : List (String × ParameterValue)
  sqlOn : Option String
  joinType : Option String
  relationship : Option String
  view : Option String

/-- ast-types.ts DerivedTableNode. -/
structure DerivedTableNode where
  name : String
  position : Position
  parameters : List (String × ParameterValue)
  sql : Option String
  exploreSource : Option String
  datagroup : Option String

/-- ast-types.ts ViewNode; the five field collections are Records keyed
by field name, embedded as lists in insertion order. -/
structure ViewNode where
  name : String
  position : Position
  parameters : List (String × ParameterValue)
  dimensions : List DimensionNode
  measures : List MeasureNode
  filters : List FilterNode
  parameterNodes : List ParameterNode
  dimensionGroups : List DimensionGroupNode
  derivedTable : Option DerivedTableNode

/-- ast-types.ts ExploreNode. -/
structure ExploreNode where
  name : String
  position : Position
  parameters : List (String × ParameterValue)
  baseView : Option String
  joins : List JoinNode

/-- ast-types.ts ModelNode. -/
structure ModelNode where
  name : String
  position : Position
  parameters : List (String × ParameterValue)
  connection : Option String
  includes : Option (List String)
  explores : List ExploreNode

/-- ast-types.ts DashboardNode (elements and filters are unimplemented
placeholders in the builder and stay empty). -/
structure DashboardNode where
  name : String
  position : Position
  parameters : List (String × ParameterValue)

/-- ast-types.ts LookMLFile: the root node owning the four name-keyed
top-level construct maps. -/
structure LookMLFile where
  fileName : String
  position : Position
  views : List ViewNode
  explores : List ExploreNode
  models : List ModelNode
  dashboards : List DashboardNode

/-- vscode-languageserver DiagnosticSeverity. -/
inductive DiagnosticSeverity where
  | error
  | warning
  | information
  | hint
deriving DecidableEq, Repr

/-- LSP position (line/character), the unit of Diagnostic ranges. -/
structure LspPosition where
  line : Nat
  character : Nat
deriving DecidableEq, Repr

/-- LSP range; the source field named end is renamed stop (end is a
reserved word in Lean). -/
structure LspRange where
  start : LspPosition
  stop : LspPosition
deriving DecidableEq, Repr

/-- LSP Diagnostic as produced by the analyzer: severity, range,
message, optional code, source tag. -/
structure Diagnostic where
  severity : DiagnosticSeverity
  range : LspRange
  message : String
  code : Option String
  source : String
deriving DecidableEq, Repr

/-- A symbol declaration (semantic-model.ts Symbol.declaration); the AST
node back-reference is omitted. -/
structure Declaration where
  uri : String
  position : Position
deriving DecidableEq, Repr

/-- A recorded reference to a symbol (semantic-model.ts). -/
structure Reference where
  uri : String
  position : Position
deriving DecidableEq, Repr

/-- semantic-model.ts Symbol; parent is embedded as the parent symbol
key (the source stores an object reference to the parent symbol). -/
structure Symbol where
  name : String
  type : String
  declaration : Declaration
  references : List Reference
  parent : Option String
deriving DecidableEq, Repr

/-- semantic-model.ts SemanticModel (nodeToSymbol WeakMap omitted). -/
structure SemanticModel where
  symbols : List (String × Symbol)
  diagnostics : List Diagnostic
  diagnosticsByUri : List (String × List Diagnostic)
  symbolsByUri : List (String × List Symbol)
deriving DecidableEq, Repr

/-- ast-parser.ts ASTParseResult; the thrown Error is embedded by its
message string. -/
structure ASTParseResult where
  success : Bool
  ast : Option LookMLFile
  error : Option String

/-- workspace.ts WorkspaceDocument. -/
structure WorkspaceDocument where
  uri : String
  fileName : String
  content : String
  ast : Option LookMLFile
  parseResult : ASTParseResult
  lastModified : Nat

/-- workspace.ts LookMLWorkspace document store: a Map keyed by URI. -/
structure LookMLWorkspace where
  documents : List (String × WorkspaceDocument)

/-- workspace.ts getAllDocuments: the values of the document map. -/
def LookMLWorkspace.getAllDocuments (ws : LookMLWorkspace) : List WorkspaceDocument :=
  ws.documents.map (fun p => p.2)

/-- workspace.ts getParsedDocuments: filter to documents with an AST. -/
def getParsedDocs (docs : List WorkspaceDocument) : List WorkspaceDocument :=
  docs.filter (fun d => d.ast.isSome)

/-- The side-channel position metadata for one node path; the reserved
key holding the 4-tuple is a dollar-p field in the raw parser output. -/
structure PositionMetadata where
  p : Option (Nat × Nat × Nat × Nat)

/-- ast-parser.ts LookMLASTParser.extractPosition: read the 4-tuple at
the reserved key when present, otherwise the all-zero Position. -/
def extractPosition : Option PositionMetadata → Position
  | some md =>
      match md.p with
      | some (a, b, c, d) => ⟨a, b, c, d⟩
      | none => Position.zero
  | none => Position.zero

/-- ast-parser.ts parseContent as a function of the external parser
outcome: on success the transformed AST, on a thrown error a failure
result carrying the error. -/
def parseContent (externalResult : Except String LookMLFile) : ASTParseResult :=
  match externalResult with
  | .ok ast => { success := true, ast := some ast, error := none }
  | .error e => { success := false, ast := none, error := some e }

/-- workspace.ts parseAndStoreDocument: the document constructed and
stored for a parse result (ast only when the parse succeeded). -/
def storedDocument (uri fileName content : String) (lastModified : Nat)
    (parseResult : ASTParseResult) : WorkspaceDocument :=
  { uri := uri, fileName := fileName, content := content,
    ast := if parseResult.success then parseResult.ast else none,
    parseResult := parseResult, lastModified := lastModified }

/-- workspace.ts parseAndStoreDocument effect on the document map. -/
def parseAndStoreDocument (ws : LookMLWorkspace) (uri fileName content : String)
    (lastModified : Nat) (externalResult : Except String LookMLFile) : LookMLWorkspace :=
  { documents := mapSet ws.documents uri
      (storedDocument uri fileName content lastModified (parseContent externalResult)) }

/-- Single-quote character as a string (used inside diagnostic
messages). -/
def sq : String := String.singleton (Char.ofNat 39)

/-- JS truthiness of an optional string field: present and nonempty. -/
def truthy : Option String → Bool
  | some s => !s.isEmpty
  | none => false

/-- SemanticAnalyzer.createDiagnostic: diagnostic from an AST Position,
with source tag lookml. -/
def createDiagnostic (severity : DiagnosticSeverity) (position : Position)
    (message : String) (code : String) : Diagnostic :=
  { severity := severity,
    range := ⟨⟨position.startLine, position.startChar⟩,
             ⟨position.endLine, position.endChar⟩⟩,
    message := message, code := some code, source := "lookml" }

/-- SemanticAnalyzer.createSymbol (references start empty, no parent). -/
def createSymbol (uri name type : String) (position : Position) : Symbol :=
  { name := name, type := type, declaration := ⟨uri, position⟩,
    references := [], parent := none }

/-- SemanticAnalyzer.createSymbolKey. -/
def createSymbolKey (type qualifiedName : String) : String :=
  type ++ ":" ++ qualifiedName

/-- SemanticAnalyzer.addReference: push a reference onto the symbol at
the key, when present. -/
def addReference (symbols : List (String × Symbol)) (key uri : String)
    (position : Position) : List (String × Symbol) :=
  match mapGet symbols key with
  | some sym =>
      mapSet symbols key { sym with references := sym.references ++ [⟨uri, position⟩] }
  | none => symbols

/-- SemanticAnalyzer.addDiagnosticForUri: append into the per-URI
group, creating it when absent. -/
def addDiagnosticForUri (uri : String) (diagnostic : Diagnostic)
    (diagnosticsByUri : List (String × List Diagnostic)) : List (String × List Diagnostic) :=
  mapSet diagnosticsByUri uri (((mapGet diagnosticsByUri uri).getD []) ++ [diagnostic])

/-- SemanticAnalyzer.isSnakeCase character class [a-z0-9_]. -/
def isSnakeTailChar (c : Char) : Bool := (c.isLower || c.isDigit) || c = '_'

/-- SemanticAnalyzer.isSnakeCase: the regex anchored match of
[a-z][a-z0-9_]*. -/
def isSnakeCase (name : String) : Bool :=
  match name.data with
  | [] => false
  | c :: cs => c.isLower && cs.all isSnakeTailChar

/-- The regex word-character class [a-zA-Z0-9_] of the embedded
reference pattern. -/
def isWordChar (c : Char) : Bool := (c.isAlpha || c.isDigit) || c = '_'

/-- Anchored match of the embedded-reference regex at the head of the
character list: a dollar-brace, an identifier, optionally a dot and a
second identifier, and a closing brace; returns the captured pair and
the remaining characters. -/
def matchRef : List Char → Option ((String × Option String) × List Char)
  | '$' :: '{' :: rest =>
      match List.span isWordChar rest with
      | (id1, rest1) =>
        if id1.isEmpty then none
        else
          match rest1 with
          | '}' :: rest2 => some ((String.mk id1, none), rest2)
          | '.' :: rest2 =>
              match List.span isWordChar rest2 with
              | (id2, rest3) =>
                if id2.isEmpty then none
                else
                  match rest3 with
                  | '}' :: rest4 => some ((String.mk id1, some (String.mk id2)), rest4)
                  | _ => none
          | _ => none
  | _ => none

/-- Global regex scan: successive non-overlapping matches left to
right, advancing one character where no match starts.  The fuel equals
the text length; every step consumes at least one character, so it
never runs out before the characters do. -/
def scanRefsGo : Nat → List Char → List (String × Option String)
  | 0, _ => []
  | _, [] => []
  | Nat.succ fuel, c :: cs =>
      match matchRef (c :: cs) with
      | some (captures, rest) => captures :: scanRefsGo fuel rest
      | none => scanRefsGo fuel cs

/-- All embedded references captured in a text by the global regex of
SemanticAnalyzer.extractAndRecordReferences. -/
def scanRefs (text : String) : List (String × Option String) :=
  scanRefsGo text.length text.data

/-- SemanticAnalyzer.extractAndRecordReferences: record a reference for
each captured view or qualified-field name that resolves in the
respective name map, silently skipping the rest. -/
def extractAndRecordReferences (text uri : String) (position : Position)
    (viewNameToKey dimensionQualifiedNameToKey measureQualifiedNameToKey : List (String × String))
    (symbols : List (String × Symbol)) : List (String × Symbol) :=
  (scanRefs text).foldl
    (fun symbols capture =>
      match capture with
      | (view, some field) =>
          let qualified := view ++ "." ++ field
          let symbols :=
            match mapGet dimensionQualifiedNameToKey qualified with
            | some key => addReference symbols key uri position
            | none => symbols
          match mapGet measureQualifiedNameToKey qualified with
          | some key => addReference symbols key uri position
          | none => symbols
      | (view, none) =>
          match mapGet viewNameToKey view with
          | some key => addReference symbols key uri position
          | none => symbols)
    symbols

/-- The mutable accumulators local to SemanticAnalyzer.analyze. -/
structure AnalyzerState where
  symbols : List (String × Symbol)
  symbolsByUri : List (String × List Symbol)
  diagnostics : List Diagnostic
  diagnosticsByUri : List (String × List Diagnostic)
  viewNameToKey : List (String × String)
  dimensionQualifiedNameToKey : List (String × String)
  measureQualifiedNameToKey : List (String × String)

/-- The empty accumulators analyze starts from. -/
def initialState : AnalyzerState :=
  { symbols := [], symbolsByUri := [], diagnostics := [],
    diagnosticsByUri := [], viewNameToKey := [],
    dimensionQualifiedNameToKey := [], measureQualifiedNameToKey := [] }

/-- Push a diagnostic both onto the flat list and into the per-URI
group (the pattern used by every analyze rule except
checkDeprecatedParams). -/
def pushBoth (uri : String) (st : AnalyzerState) (d : Diagnostic) : AnalyzerState :=
  { st with diagnostics := st.diagnostics ++ [d],
            diagnosticsByUri := addDiagnosticForUri uri d st.diagnosticsByUri }

/-- Push a diagnostic onto the flat list only (what
SemanticAnalyzer.checkDeprecatedParams does: it never receives the
per-URI index). -/
def pushFlat (st : AnalyzerState) (d : Diagnostic) : AnalyzerState :=
  { st with diagnostics := st.diagnostics ++ [d] }

/-- The parse-error diagnostic of a failed document: Error at the zero
range, carrying the underlying parser error message, no code. -/
def parseErrorDiag (msg : String) : Diagnostic :=
  { severity := .error,
    range := ⟨⟨0, 0⟩, ⟨0, 0⟩⟩,
    message := "Parse error: " ++ msg,
    code := none, source := "lookml" }

/-- Parse-error pass (analyze, first loop): one Error diagnostic at the
zero range per document whose parse failed with a retained error. -/
def parseErrorPass (docs : List WorkspaceDocument) (st : AnalyzerState) : AnalyzerState :=
  docs.foldl
    (fun st doc =>
      if !doc.parseResult.success && doc.parseResult.error.isSome then
        pushBoth doc.uri st (parseErrorDiag (doc.parseResult.error.getD ""))
      else st)
    st

/-- View of any of the five field kinds through the properties the
validation rules read (name, position, parameters). -/
structure FieldInfo where
  name : String
  position : Position
  parameters : List (String × ParameterValue)

/-- The concatenated field collections of a view, in the order the
analyze validation passes enumerate them: dimensions, measures,
filters, parameterNodes, dimensionGroups. -/
def ViewNode.fieldNodes (v : ViewNode) : List FieldInfo :=
  v.dimensions.map (fun d => ⟨d.name, d.position, d.parameters⟩) ++
  v.measures.map (fun m => ⟨m.name, m.position, m.parameters⟩) ++
  v.filters.map (fun f => ⟨f.name, f.position, f.parameters⟩) ++
  v.parameterNodes.map (fun p => ⟨p.name, p.position, p.parameters⟩) ++
  v.dimensionGroups.map (fun g => ⟨g.name, g.position, g.parameters⟩)

/-- Register a symbol: set it in the global key map and push it onto
the file symbol list. -/
def addSymbol (acc : AnalyzerState × List Symbol) (key : String) (sym : Symbol) :
    AnalyzerState × List Symbol :=
  ({ acc.1 with symbols := mapSet acc.1.symbols key sym }, acc.2 ++ [sym])

/-- Symbol pass, model entry. -/
def symbolizeModel (uri : String) (acc : AnalyzerState × List Symbol)
    (model : ModelNode) : AnalyzerState × List Symbol :=
  addSymbol acc (createSymbolKey "model" model.name)
    (createSymbol uri model.name "model" model.position)

/-- Symbol pass, dimension entry: qualified key, parent view link, and
the dimension qualified-name reverse map. -/
def symbolizeDimension (uri viewName viewKey : String)
    (acc : AnalyzerState × List Symbol) (d : DimensionNode) : AnalyzerState × List Symbol :=
  let qualified := viewName ++ "." ++ d.name
  let key := createSymbolKey "dimension" qualified
  let sym := { createSymbol uri qualified "dimension" d.position with parent := some viewKey }
  let acc := addSymbol acc key sym
  ({ acc.1 with dimensionQualifiedNameToKey := mapSet acc.1.dimensionQualifiedNameToKey qualified key }, acc.2)

/-- Symbol pass, measure entry (with the measure reverse map). -/
def symbolizeMeasure (uri viewName viewKey : String)
    (acc : AnalyzerState × List Symbol) (m : MeasureNode) : AnalyzerState × List Symbol :=
  let qualified := viewName ++ "." ++ m.name
  let key := createSymbolKey "measure" qualified
  let sym := { createSymbol uri qualified "measure" m.position with parent := some viewKey }
  let acc := addSymbol acc key sym
  ({ acc.1 with measureQualifiedNameToKey := mapSet acc.1.measureQualifiedNameToKey qualified key }, acc.2)

/-- Symbol pass, filter entry. -/
def symbolizeFilter (uri viewName viewKey : String)
    (acc : AnalyzerState × List Symbol) (f : FilterNode) : AnalyzerState × List Symbol :=
  let qualified := viewName ++ "." ++ f.name
  addSymbol acc (createSymbolKey "filter" qualified)
    { createSymbol uri qualified "filter" f.position with parent := some viewKey }

/-- Symbol pass, named-parameter entry. -/
def symbolizeParameterNode (uri viewName viewKey : String)
    (acc : AnalyzerState × List Symbol) (p : ParameterNode) : AnalyzerState × List Symbol :=
  let qualified := viewName ++ "." ++ p.name
  addSymbol acc (createSymbolKey "parameter" qualified)
    { createSymbol uri qualified "parameter" p.position with parent := some viewKey }

/-- Symbol pass, dimension-group entry. -/
def symbolizeDimensionGroup (uri viewName viewKey : String)
    (acc : AnalyzerState × List Symbol) (g : DimensionGroupNode) : AnalyzerState × List Symbol :=
  let qualified := viewName ++ "." ++ g.name
  addSymbol acc (createSymbolKey "dimension_group" qualified)
    { createSymbol uri qualified "dimension_group" g.position with parent := some viewKey }

/-- Symbol pass, view entry, core stage: the view symbol and the bare
view-name reverse map entry. -/
def symbolizeViewCore (uri : String) (acc : AnalyzerState × List Symbol)
    (view : ViewNode) : AnalyzerState × List Symbol :=
  let viewKey := createSymbolKey "view" view.name
  let acc := addSymbol acc viewKey (createSymbol uri view.name "view" view.position)
  ({ acc.1 with viewNameToKey := mapSet acc.1.viewNameToKey view.name viewKey }, acc.2)

/-- Symbol pass, view entry: the view symbol, the bare view-name
reverse map, then one symbol per field with a parent link. -/
def symbolizeView (uri : String) (acc : AnalyzerState × List Symbol)
    (view : ViewNode) : AnalyzerState × List Symbol :=
  let viewKey := createSymbolKey "view" view.name
  let acc := symbolizeViewCore uri acc view
  let acc := view.dimensions.foldl (symbolizeDimension uri view.name viewKey) acc
  let acc := view.measures.foldl (symbolizeMeasure uri view.name viewKey) acc
  let acc := view.filters.foldl (symbolizeFilter uri view.name viewKey) acc
  let acc := view.parameterNodes.foldl (symbolizeParameterNode uri view.name viewKey) acc
  view.dimensionGroups.foldl (symbolizeDimensionGroup uri view.name viewKey) acc

/-- Symbol pass, explore entry: the explore symbol, then one join
symbol per join with the explore as parent. -/
def symbolizeExplore (uri : String) (acc : AnalyzerState × List Symbol)
    (explore : ExploreNode) : AnalyzerState × List Symbol :=
  let exploreKey := createSymbolKey "explore" explore.name
  let acc := addSymbol acc exploreKey
    (createSymbol uri explore.name "explore" explore.position)
  explore.joins.foldl
    (fun acc join =>
      let qualified := explore.name ++ "." ++ join.name
      addSymbol acc (createSymbolKey "join" qualified)
        { createSymbol uri qualified "join" join.position with parent := some exploreKey })
    acc

/-- Symbol construction pass for one parsed document (analyze, second
loop): models, views with their fields, explores with their joins; the
per-file symbol list is indexed under the document URI when nonempty. -/
def symbolPassDoc (st : AnalyzerState) (doc : WorkspaceDocument) : AnalyzerState :=
  match doc.ast with
  | none => st
  | some ast =>
      let acc := (st, [])
      let acc := ast.models.foldl (symbolizeModel doc.uri) acc
      let acc := ast.views.foldl (symbolizeView doc.uri) acc
      let acc := ast.explores.foldl (symbolizeExplore doc.uri) acc
      if acc.2.isEmpty then acc.1
      else { acc.1 with symbolsByUri := mapSet acc.1.symbolsByUri doc.uri acc.2 }

/-- Message of the undefined-view diagnostic. -/
def undefinedViewMessage (name : String) : String :=
  "View " ++ sq ++ name ++ sq ++ " not found"

/-- The undefined-view Error diagnostic at a position. -/
def undefinedViewDiag (name : String) (position : Position) : Diagnostic :=
  createDiagnostic .error position (undefinedViewMessage name) "undefined-view"

/-- Cross-reference pass, base-view handling of one explore: resolved
names get a reference recorded at the explore position, unresolved
names an undefined-view Error there. -/
def crossRefExploreBase (uri : String) (e : ExploreNode) (st : AnalyzerState) : AnalyzerState :=
  if truthy e.baseView then
    match mapGet st.viewNameToKey (e.baseView.getD "") with
    | some refKey => { st with symbols := addReference st.symbols refKey uri e.position }
    | none => pushBoth uri st (undefinedViewDiag (e.baseView.getD "") e.position)
  else st

/-- The four canonical relationship values. -/
def validRelationships : List String :=
  ["one_to_one", "one_to_many", "many_to_one", "many_to_many"]

/-- Cross-reference pass, one join, view stage: view resolution into a
recorded reference or an undefined-view Error. -/
def crossRefJoinView (uri : String) (st : AnalyzerState) (j : JoinNode) : AnalyzerState :=
  if truthy j.view then
    match mapGet st.viewNameToKey (j.view.getD "") with
    | some viewKey => { st with symbols := addReference st.symbols viewKey uri j.position }
    | none => pushBoth uri st (undefinedViewDiag (j.view.getD "") j.position)
  else st

/-- Cross-reference pass, one join, missing sql_on stage. -/
def crossRefJoinSqlOnMissing (uri : String) (st : AnalyzerState) (j : JoinNode) : AnalyzerState :=
  if !truthy j.sqlOn then
    pushBoth uri st (createDiagnostic .error j.position
      ("Join " ++ sq ++ j.name ++ sq ++ " is missing sql_on condition") "missing-sql-on")
  else st

/-- Cross-reference pass, one join, relationship stage. -/
def crossRefJoinRelationship (uri : String) (st : AnalyzerState) (j : JoinNode) : AnalyzerState :=
  if truthy j.relationship then
    if (j.relationship.getD "") ∈ validRelationships then st
    else
      pushBoth uri st (createDiagnostic .error j.position
        ("Invalid relationship " ++ sq ++ (j.relationship.getD "") ++ sq ++
          ". Must be one of: " ++ String.intercalate ", " validRelationships)
        "invalid-relationship")
  else st

/-- Cross-reference pass, one join, sql_on embedded-reference stage. -/
def crossRefJoinExtract (uri : String) (st : AnalyzerState) (j : JoinNode) : AnalyzerState :=
  if truthy j.sqlOn then
    { st with symbols := (extractAndRecordReferences (j.sqlOn.getD "") uri j.position
        st.viewNameToKey st.dimensionQualifiedNameToKey st.measureQualifiedNameToKey
        st.symbols) }
  else st

/-- Cross-reference pass, one join: view resolution (reference or
undefined-view), missing sql_on, invalid relationship, then embedded
references of the sql_on text. -/
def crossRefJoin (uri : String) (st : AnalyzerState) (j : JoinNode) : AnalyzerState :=
  crossRefJoinExtract uri
    (crossRefJoinRelationship uri
      (crossRefJoinSqlOnMissing uri (crossRefJoinView uri st j) j) j) j

/-- Cross-reference pass for one explore: base view, then every join. -/
def crossRefExplore (uri : String) (st : AnalyzerState) (e : ExploreNode) : AnalyzerState :=
  e.joins.foldl (crossRefJoin uri) (crossRefExploreBase uri e st)

/-- Message of a duplicate-field diagnostic. -/
def dupMessage (fieldName viewName : String) : String :=
  "Duplicate field name " ++ sq ++ fieldName ++ sq ++ " in view " ++ sq ++ viewName ++ sq

/-- The duplicate-field Error diagnostic for one field occurrence. -/
def mkDupDiag (viewName : String) (f : FieldInfo) : Diagnostic :=
  createDiagnostic .error f.position (dupMessage f.name viewName) "duplicate-field"

/-- Duplicate-field fold step: a name already seen emits an Error at
this occurrence, a new name is recorded. -/
def dupFold (uri viewName : String) (acc : AnalyzerState × List String)
    (f : FieldInfo) : AnalyzerState × List String :=
  if f.name ∈ acc.2 then (pushBoth uri acc.1 (mkDupDiag viewName f), acc.2)
  else (acc.1, f.name :: acc.2)

/-- The fixed valid measure type enumeration. -/
def validMeasureTypes : List String :=
  ["count", "count_distinct", "sum", "average", "min", "max", "median",
   "percentile", "number", "yesno", "list"]

/-- Validation of one measure: invalid measure type Error, then
embedded references of its sql text. -/
def measureStep (uri : String) (st : AnalyzerState) (m : MeasureNode) : AnalyzerState :=
  let st :=
    if truthy m.measureType && !((m.measureType.getD "") ∈ validMeasureTypes : Bool) then
      pushBoth uri st (createDiagnostic .error m.position
        ("Invalid measure type " ++ sq ++ (m.measureType.getD "") ++ sq ++
          ". Must be one of: " ++ String.intercalate ", " validMeasureTypes)
        "invalid-measure-type")
    else st
  if truthy m.sql then
    { st with symbols := (extractAndRecordReferences (m.sql.getD "") uri m.position
        st.viewNameToKey st.dimensionQualifiedNameToKey st.measureQualifiedNameToKey
        st.symbols) }
  else st

/-- The fixed valid dimension type enumeration. -/
def validDimensionTypes : List String :=
  ["string", "number", "int", "yesno", "tier", "date", "date_time", "time",
   "duration", "location", "zipcode"]

/-- Validation of one dimension: missing-sql Warning (unless primary
key), invalid dimension type Error, then embedded references of its
sql text. -/
def dimensionStep (uri : String) (st : AnalyzerState) (d : DimensionNode) : AnalyzerState :=
  let st :=
    if !truthy d.sql && !d.primaryKey then
      pushBoth uri st (createDiagnostic .warning d.position
        ("Dimension " ++ sq ++ d.name ++ sq ++ " is missing sql parameter") "missing-sql")
    else st
  let st :=
    if truthy d.dataType && !((d.dataType.getD "") ∈ validDimensionTypes : Bool) then
      pushBoth uri st (createDiagnostic .error d.position
        ("Invalid dimension type " ++ sq ++ (d.dataType.getD "") ++ sq ++
          ". Must be one of: " ++ String.intercalate ", " validDimensionTypes)
        "invalid-dimension-type")
    else st
  if truthy d.sql then
    { st with symbols := (extractAndRecordReferences (d.sql.getD "") uri d.position
        st.viewNameToKey st.dimensionQualifiedNameToKey st.measureQualifiedNameToKey
        st.symbols) }
  else st

/-- The fixed deprecated parameter name set. -/
def deprecatedParams : List String := ["fanout_on", "case_sensitive"]

/-- SemanticAnalyzer.checkDeprecatedParams for one node: a Warning per
deprecated parameter key, pushed onto the flat diagnostics list only
(the per-URI index is not passed to this helper in the source). -/
def checkDeprecatedParams (st : AnalyzerState) (position : Position)
    (parameters : List (String × ParameterValue)) : AnalyzerState :=
  parameters.foldl
    (fun st p =>
      if p.1 ∈ deprecatedParams then
        pushFlat st (createDiagnostic .warning position
          ("Parameter " ++ sq ++ p.1 ++ sq ++ " is deprecated") "deprecated-parameter")
      else st)
    st

/-- Naming-convention check of one field. -/
def namingFieldStep (uri : String) (st : AnalyzerState) (f : FieldInfo) : AnalyzerState :=
  if !isSnakeCase f.name then
    pushBoth uri st (createDiagnostic .information f.position
      ("Field name " ++ sq ++ f.name ++ sq ++ " should use snake_case") "naming-convention")
  else st

/-- Per-view validation (analyze, third loop, view part): duplicate
fields, measure checks, dimension checks, deprecated parameters (view
then fields), naming convention (view then fields). -/
def validateView (uri : String) (st : AnalyzerState) (view : ViewNode) : AnalyzerState :=
  let fields := view.fieldNodes
  let st := (fields.foldl (dupFold uri view.name) (st, [])).1
  let st := view.measures.foldl (measureStep uri) st
  let st := view.dimensions.foldl (dimensionStep uri) st
  let st := checkDeprecatedParams st view.position view.parameters
  let st := fields.foldl (fun st f => checkDeprecatedParams st f.position f.parameters) st
  let st :=
    if !isSnakeCase view.name then
      pushBoth uri st (createDiagnostic .information view.position
        ("View name " ++ sq ++ view.name ++ sq ++ " should use snake_case")
        "naming-convention")
    else st
  fields.foldl (namingFieldStep uri) st

/-- Cross-reference and validation pass for one parsed document
(analyze, third loop): all explores, then all views. -/
def crossValidateDoc (st : AnalyzerState) (doc : WorkspaceDocument) : AnalyzerState :=
  match doc.ast with
  | none => st
  | some ast =>
      let st := ast.explores.foldl (crossRefExplore doc.uri) st
      ast.views.foldl (validateView doc.uri) st

/-- JS Set add: append when absent. -/
def addSet (l : List String) (x : String) : List String :=
  if x ∈ l then l else l ++ [x]

/-- Whole-workspace used-view collection: every truthy base view and
join target across all parsed documents. -/
def collectUsedViews (docs : List WorkspaceDocument) : List String :=
  docs.foldl
    (fun used doc =>
      match doc.ast with
      | none => used
      | some ast =>
          ast.explores.foldl
            (fun used e =>
              let used := if truthy e.baseView then addSet used (e.baseView.getD "") else used
              e.joins.foldl
                (fun used j => if truthy j.view then addSet used (j.view.getD "") else used)
                used)
            used)
    ([] : List String)

/-- Unused-view pass for one parsed document: an Information diagnostic
per view never referenced by any explore. -/
def unusedViewDoc (used : List String) (st : AnalyzerState) (doc : WorkspaceDocument) : AnalyzerState :=
  match doc.ast with
  | none => st
  | some ast =>
      ast.views.foldl
        (fun st view =>
          if view.name ∈ used then st
          else
            pushBoth doc.uri st (createDiagnostic .information view.position
              ("View " ++ sq ++ view.name ++ sq ++ " is not used in any explore")
              "unused-view"))
        st

/-- The join loop inside the checkCycle closure of the cyclic-join
pass, threading the visited set and short-circuiting on the first
detected cycle; the recursive checkCycle call is passed in as recurse.
Note the loop ranges over ALL joins of the explore (the pending list
starts as the full join list), not the joins of the view currently
visited. -/
def checkCycleJoins (recurse : String → List String → List String → Bool × List String) :
    List JoinNode → List String → List String → Bool × List String
  | [], visited, _ => (false, visited)
  | j :: js, visited, stack =>
      if truthy j.view then
        match recurse (j.view.getD "") visited stack with
        | (true, visited1) => (true, visited1)
        | (false, visited1) => checkCycleJoins recurse js visited1 stack
      else checkCycleJoins recurse js visited stack

/-- The checkCycle closure of the cyclic-join pass.  It recurses with a
fuel bound: each non-returning level adds a distinct name (drawn from
the base view and the join targets) to visited, so the nesting depth is
at most joins.length plus two and the zero-fuel branch is never reached
at the fuel the pass supplies. -/
def checkCycle (joins : List JoinNode) : Nat → String → List String → List String → Bool × List String
  | 0, _, visited, _ => (false, visited)
  | Nat.succ f, viewName, visited, stack =>
      if viewName ∈ stack then (true, visited)
      else if viewName ∈ visited then (false, visited)
      else
        checkCycleJoins (fun v vis stk => checkCycle joins f v vis stk) joins
          (viewName :: visited) (viewName :: stack)

/-- Cyclic-join pass for one explore: fresh visited and recursion
stacks, a depth-first walk from the base view, a Warning at the explore
position when a cycle is reported. -/
def cyclicJoinExplore (uri : String) (st : AnalyzerState) (e : ExploreNode) : AnalyzerState :=
  if truthy e.baseView then
    if (checkCycle e.joins (e.joins.length + 2) (e.baseView.getD "") [] []).1 then
      pushBoth uri st (createDiagnostic .warning e.position
        ("Cyclic dependency detected in explore " ++ sq ++ e.name ++ sq) "cyclic-join")
    else st
  else st

/-- Cyclic-join pass for one parsed document. -/
def cyclicJoinDoc (st : AnalyzerState) (doc : WorkspaceDocument) : AnalyzerState :=
  match doc.ast with
  | none => st
  | some ast => ast.explores.foldl (cyclicJoinExplore doc.uri) st

/-- The analyzer accumulator state after all five passes of
SemanticAnalyzer.analyze: parse errors, symbol construction,
cross-references and per-view validation, unused views, cyclic joins. -/
def analyzeSt (docs : List WorkspaceDocument) : AnalyzerState :=
  let parsed := getParsedDocs docs
  let st := parseErrorPass docs initialState
  let st := parsed.foldl symbolPassDoc st
  let st := parsed.foldl crossValidateDoc st
  let used := collectUsedViews parsed
  let st := parsed.foldl (unusedViewDoc used) st
  parsed.foldl cyclicJoinDoc st

/-- SemanticAnalyzer.analyze over the workspace document list: the
accumulators of the five passes become the new SemanticModel. -/
def analyze (docs : List WorkspaceDocument) : SemanticModel :=
  let st := analyzeSt docs
  { symbols := st.symbols, diagnostics := st.diagnostics,
    diagnosticsByUri := st.diagnosticsByUri, symbolsByUri := st.symbolsByUri }

/-- SemanticAnalyzer.analyze taking the workspace, as the source method
does: it reads only the document store. -/
def analyzeWorkspace (ws : LookMLWorkspace) : SemanticModel :=
  analyze ws.getAllDocuments

/-- The position-in-range test shared by the definition and reference
providers: an LSP line/character against a declaration Position. -/
def isPositionInRange (line character : Nat) (r : Position) : Bool :=
  if line < r.startLine || line > r.endLine then false
  else if line = r.startLine && character < r.startChar then false
  else if line = r.endLine && character > r.endChar then false
  else true

/-- The symbol-at-position selection used by
LookMLDefinitionProvider.getDefinition and
LookMLReferenceProvider.getReferences: the FIRST symbol of the file
symbol list whose declaration range contains the position. -/
def symbolAtPositionFind (symbolsInFile : List Symbol) (line character : Nat) : Option Symbol :=
  symbolsInFile.find? (fun s => isPositionInRange line character s.declaration.position)

/-- LookMLDefinitionProvider.getDefinition symbol selection: the file
symbol index of the URI, then the first containing symbol. -/
def getDefinitionSymbol (model : SemanticModel) (uri : String)
    (line character : Nat) : Option Symbol :=
  match mapGet model.symbolsByUri uri with
  | none => none
  | some symbolsInFile => symbolAtPositionFind symbolsInFile line character

/-- LookMLDiagnosticsProvider.getDiagnostics: the per-URI group when
the model has one, otherwise the whole flat diagnostics list. -/
def providerGetDiagnostics (model : Option SemanticModel) (uri : String) : List Diagnostic :=
  match model with
  | none => []
  | some m =>
      match mapGet m.diagnosticsByUri uri with
      | some group => group
      | none => m.diagnostics

/-- A validation rule of the pre-refactor diagnostics provider: a
function of the document that either returns diagnostics or raises (the
raised error modeled by its message). -/
def ValidationRule : Type := WorkspaceDocument → Except String (List Diagnostic)

/-- The per-rule loop of the pre-refactor
LookMLDiagnosticsProvider.getDiagnostics: each rule runs inside its own
try/catch; a raising rule contributes nothing, the others accumulate. -/
def runValidationRules (rules : List ValidationRule) (doc : WorkspaceDocument) : List Diagnostic :=
  rules.foldl
    (fun acc rule =>
      match rule doc with
      | .ok ds => acc ++ ds
      | .error _ => acc)
    []

/-- The rangeIsInside test of the completion provider
(LookMLCompletionProvider.rangeIsInside): inner lies within outer. -/
def rangeIsInside (inner outer : Position) : Bool :=
  if inner.startLine < outer.startLine then false
  else if inner.endLine > outer.endLine then false
  else if inner.startLine = outer.startLine && inner.startChar < outer.startChar then false
  else if inner.endLine = outer.endLine && inner.endChar > outer.endChar then false
  else true

/-! Concrete fixtures shared by witnesses and counterexamples. -/

/-- A view with the given name and no fields. -/
def emptyView (name : String) : ViewNode :=
  { name := name, position := ⟨1, 0, 3, 1⟩, parameters := [], dimensions := [],
    measures := [], filters := [], parameterNodes := [], dimensionGroups := [],
    derivedTable := none }

/-- A join of view b with sql_on and a valid relationship. -/
def exJoin : JoinNode :=
  { name := "b", position := ⟨6, 2, 8, 3⟩, parameters := [],
    sqlOn := some "x = y", joinType := none,
    relationship := some "many_to_one", view := some "b" }

/-- An explore of base view a with the single join of view b; its join
graph is strictly acyclic (a joins b, nothing joins back). -/
def exExplore : ExploreNode :=
  { name := "e", position := ⟨5, 0, 9, 1⟩, parameters := [],
    baseView := some "a", joins := [exJoin] }

/-- A file declaring views a and b and the acyclic explore. -/
def exFile : LookMLFile :=
  { fileName := "m.lkml", position := ⟨0, 0, 10, 0⟩,
    views := [emptyView "a", emptyView "b"], explores := [exExplore],
    models := [], dashboards := [] }

/-- The successfully parsed document holding exFile. -/
def exDoc : WorkspaceDocument :=
  { uri := "file:///m.lkml", fileName := "m.lkml", content := "c",
    ast := some exFile,
    parseResult := { success := true, ast := some exFile, error := none },
    lastModified := 0 }

/-- A view carrying the deprecated parameter fanout_on. -/
def exDepView : ViewNode :=
  { emptyView "v" with parameters := [("fanout_on", ParameterValue.str "x")] }

/-- A file holding only the deprecated-parameter view. -/
def exDepFile : LookMLFile :=
  { fileName := "d.lkml", position := ⟨0, 0, 4, 0⟩, views := [exDepView],
    explores := [], models := [], dashboards := [] }

/-- The successfully parsed document holding exDepFile. -/
def exDepDoc : WorkspaceDocument :=
  { uri := "file:///d.lkml", fileName := "d.lkml", content := "c",
    ast := some exDepFile,
    parseResult := { success := true, ast := some exDepFile, error := none },
    lastModified := 0 }

/-- Sample diagnostic A. -/
def exDiagA : Diagnostic := createDiagnostic .error ⟨1, 2, 3, 4⟩ "A" "code-a"

/-- Sample diagnostic B. -/
def exDiagB : Diagnostic := createDiagnostic .warning ⟨2, 0, 2, 9⟩ "B" "code-b"

/-- A semantic model with a flat list larger than its only per-URI
group. -/
def exModel : SemanticModel :=
  { symbols := [], diagnostics := [exDiagA, exDiagB],
    diagnosticsByUri := [("file:///g.lkml", [exDiagA])], symbolsByUri := [] }

/-- A view symbol spanning lines 0 to 5. -/
def exViewSymbol : Symbol :=
  { name := "orders", type := "view",
    declaration := ⟨"file:///v.lkml", ⟨0, 0, 5, 1⟩⟩,
    references := [], parent := none }

/-- A dimension symbol nested strictly inside the view symbol range. -/
def exDimSymbol : Symbol :=
  { name := "orders.id", type := "dimension",
    declaration := ⟨"file:///v.lkml", ⟨1, 2, 2, 3⟩⟩,
    references := [], parent := some "view:orders" }

/-- A validation rule returning diagnostic A. -/
def ruleOkA : ValidationRule := fun _ => .ok [exDiagA]

/-- A validation rule that raises. -/
def ruleBoom : ValidationRule := fun _ => .error "boom"

/-- A validation rule returning diagnostic B. -/
def ruleOkB : ValidationRule := fun _ => .ok [exDiagB]

/-- C9: AST building is total with respect to position metadata: when
the side-channel metadata for a node path is missing (no metadata
object, or no 4-tuple at the reserved key), extractPosition yields the
all-zero Position; being a total function it never yields null and
never throws. -/
theorem extractPosition_missing_metadata_zero :
    extractPosition none = Position.zero ∧
    ∀ md : PositionMetadata, md.p = none → extractPosition (some md) = Position.zero := by
  refine ⟨rfl, ?_⟩
  intro md h
  simp [extractPosition, h]

/-- Witness for C9 at a concrete metadata object with no 4-tuple. -/
theorem extractPosition_missing_metadata_zero_witness :
    extractPosition (some ⟨none⟩) = Position.zero :=
  extractPosition_missing_metadata_zero.2 ⟨none⟩ rfl

/-- C10: getDiagnostics returns the diagnosticsByUri group of the URI
when the model has one, and falls back to the whole workspace flat
diagnostics list (not an empty list) when the model has no group for
that URI. -/
theorem getDiagnostics_group_or_flat (m : SemanticModel) (uri : String) :
    (∀ group, mapGet m.diagnosticsByUri uri = some group →
        providerGetDiagnostics (some m) uri = group) ∧
    (mapGet m.diagnosticsByUri uri = none →
        providerGetDiagnostics (some m) uri = m.diagnostics) := by
  constructor
  · intro group h
    simp [providerGetDiagnostics, h]
  · intro h
    simp [providerGetDiagnostics, h]

/-- Witness for C10: on exModel, a present group is returned as is, and
a URI with no group receives the whole flat list. -/
theorem getDiagnostics_group_or_flat_witness :
    providerGetDiagnostics (some exModel) "file:///g.lkml" = [exDiagA] ∧
    providerGetDiagnostics (some exModel) "file:///clean.lkml" = [exDiagA, exDiagB] :=
  ⟨(getDiagnostics_group_or_flat exModel "file:///g.lkml").1 [exDiagA] rfl,
   (getDiagnostics_group_or_flat exModel "file:///clean.lkml").2 rfl⟩

/-- C7: analyze is a pure function of the current document set: two
runs over equal document sets produce identical SemanticModels, with
the same symbol map, the same diagnostics in the same order, and the
same per-URI indexes.  (The source SemanticAnalyzer carries no instance
state; analyze reads only workspace.getAllDocuments().) -/
theorem analyze_depends_only_on_documents (ws1 ws2 : LookMLWorkspace)
    (h : ws1.getAllDocuments = ws2.getAllDocuments) :
    analyzeWorkspace ws1 = analyzeWorkspace ws2 ∧
    (analyzeWorkspace ws1).symbols = (analyzeWorkspace ws2).symbols ∧
    (analyzeWorkspace ws1).diagnostics = (analyzeWorkspace ws2).diagnostics ∧
    (analyzeWorkspace ws1).diagnosticsByUri = (analyzeWorkspace ws2).diagnosticsByUri ∧
    (analyzeWorkspace ws1).symbolsByUri = (analyzeWorkspace ws2).symbolsByUri := by
  unfold analyzeWorkspace
  rw [h]
  exact ⟨rfl, rfl, rfl, rfl, rfl⟩

/-- Witness for C7: two workspaces storing the same document under
different map keys analyze to the same model. -/
theorem analyze_depends_only_on_documents_witness :
    analyzeWorkspace ⟨[("k1", exDoc)]⟩ = analyzeWorkspace ⟨[("k2", exDoc)]⟩ ∧
    (analyzeWorkspace ⟨[("k1", exDoc)]⟩).symbols = (analyzeWorkspace ⟨[("k2", exDoc)]⟩).symbols ∧
    (analyzeWorkspace ⟨[("k1", exDoc)]⟩).diagnostics = (analyzeWorkspace ⟨[("k2", exDoc)]⟩).diagnostics ∧
    (analyzeWorkspace ⟨[("k1", exDoc)]⟩).diagnosticsByUri = (analyzeWorkspace ⟨[("k2", exDoc)]⟩).diagnosticsByUri ∧
    (analyzeWorkspace ⟨[("k1", exDoc)]⟩).symbolsByUri = (analyzeWorkspace ⟨[("k2", exDoc)]⟩).symbolsByUri :=
  analyze_depends_only_on_documents ⟨[("k1", exDoc)]⟩ ⟨[("k2", exDoc)]⟩ rfl

/-- C8: an exception raised inside a single validation rule is caught
at that rule boundary and suppresses only that rule's diagnostics: the
provider output with the raising rule equals the output without it, so
the contributions of all other rules in the pass are untouched (and the
run itself is a total function, never propagating the exception). -/
theorem rule_exception_isolated (rules1 rules2 : List ValidationRule)
    (bad : ValidationRule) (doc : WorkspaceDocument) (e : String)
    (h : bad doc = .error e) :
    runValidationRules (rules1 ++ bad :: rules2) doc =
      runValidationRules (rules1 ++ rules2) doc := by
  unfold runValidationRules
  rw [List.foldl_append, List.foldl_append, List.foldl_cons]
  congr 1
  simp [h]

/-- Witness for C8: a raising rule between two healthy rules changes
nothing about their diagnostics. -/
theorem rule_exception_isolated_witness :
    runValidationRules [ruleOkA, ruleBoom, ruleOkB] exDoc =
      runValidationRules [ruleOkA, ruleOkB] exDoc :=
  rule_exception_isolated [ruleOkA] [ruleOkB] ruleBoom exDoc "boom" rfl

/-- C2 counterexample: at line 1 character 3, the selection used by
getDefinition and getReferences returns the view symbol although the
dimension symbol also contains the position and its declaration range
lies strictly inside the view range - the field does NOT win over the
view, refuting the smallest-containing-range claim for these
providers. -/
theorem symbolAtPosition_not_smallest :
    symbolAtPositionFind [exViewSymbol, exDimSymbol] 1 3 = some exViewSymbol ∧
    isPositionInRange 1 3 exDimSymbol.declaration.position = true ∧
    rangeIsInside exDimSymbol.declaration.position exViewSymbol.declaration.position = true ∧
    exViewSymbol ≠ exDimSymbol := by
  refine ⟨rfl, rfl, rfl, ?_⟩
  decide

/-- C2 amended: the symbol returned by the getDefinition/getReferences
selection is one whose declaration range contains the position, and it
is the FIRST such symbol in the file declaration order (every symbol
listed before it fails the containment test); with nested ranges the
enclosing view is declared before its fields and therefore wins. -/
theorem symbolAtPosition_first_containing (syms : List Symbol) :
    ∀ (line character : Nat) (s : Symbol),
      symbolAtPositionFind syms line character = some s →
      isPositionInRange line character s.declaration.position = true ∧
      ∃ pre post, syms = pre ++ s :: post ∧
        ∀ s2 ∈ pre, isPositionInRange line character s2.declaration.position = false := by
  induction syms with
  | nil => intro line character s h; simp [symbolAtPositionFind] at h
  | cons a as ih =>
      intro line character s h
      unfold symbolAtPositionFind at h
      rw [List.find?_cons] at h
      cases hpa : isPositionInRange line character a.declaration.position with
      | true =>
          rw [hpa] at h
          cases h
          exact ⟨hpa, [], as, rfl, by intro s2 hs2; cases hs2⟩
      | false =>
          rw [hpa] at h
          obtain ⟨hcont, pre, post, hsplit, hpre⟩ := ih line character s h
          refine ⟨hcont, a :: pre, post, by rw [hsplit]; rfl, ?_⟩
          intro s2 hs2
          rcases List.mem_cons.mp hs2 with h2 | h2
          · rw [h2]; exact hpa
          · exact hpre s2 h2

/-- Witness for C2 amended at a concrete file symbol list. -/
theorem symbolAtPosition_first_containing_witness :
    isPositionInRange 1 3 exDimSymbol.declaration.position = true ∧
    ∃ pre post, [exViewSymbol, exDimSymbol] = pre ++ exViewSymbol :: post ∧
      ∀ s2 ∈ pre, isPositionInRange 1 3 s2.declaration.position = false :=
  symbolAtPosition_first_containing [exViewSymbol, exDimSymbol] 1 3 exViewSymbol rfl

/-- C1 (code bug, evaluated at the failing input): the workspace of
exDoc declares views a and b and the explore e whose join graph is
strictly acyclic (base view a, a single join of view b, no join back),
yet analysis emits the cyclic-join Warning at the explore position as
its only diagnostic, because checkCycle re-scans every join of the
explore at every recursion level instead of the joins reachable from
the visited view. -/
theorem cyclicJoin_emitted_for_acyclic_explore :
    (analyze [exDoc]).diagnostics =
      [createDiagnostic .warning exExplore.position
        ("Cyclic dependency detected in explore " ++ sq ++ "e" ++ sq) "cyclic-join"] := by
  decide

/-- C5 (code bug, evaluated at the failing input): for the workspace of
exDepDoc (one view carrying the deprecated parameter fanout_on), the
deprecated-parameter Warning appears in the flat diagnostics list but
in no per-URI group: the union of the diagnosticsByUri groups misses
it, because checkDeprecatedParams never receives the per-URI index. -/
theorem deprecated_parameter_missing_from_uri_groups :
    (analyze [exDepDoc]).diagnostics =
      [createDiagnostic .warning exDepView.position
        ("Parameter " ++ sq ++ "fanout_on" ++ sq ++ " is deprecated") "deprecated-parameter",
       createDiagnostic .information exDepView.position
        ("View " ++ sq ++ "v" ++ sq ++ " is not used in any explore") "unused-view"] ∧
    (analyze [exDepDoc]).diagnosticsByUri =
      [("file:///d.lkml",
        [createDiagnostic .information exDepView.position
          ("View " ++ sq ++ "v" ++ sq ++ " is not used in any explore") "unused-view"])] ∧
    (createDiagnostic .warning exDepView.position
        ("Parameter " ++ sq ++ "fanout_on" ++ sq ++ " is deprecated") "deprecated-parameter") ∉
      List.flatten ((analyze [exDepDoc]).diagnosticsByUri.map Prod.snd) := by
  refine ⟨by decide, by decide, ?_⟩
  decide

/-! Machinery: association-map lemmas, monotonicity of the analyzer
state through the cross-reference and validation passes. -/

theorem mapGet_mapSet {α : Type} (m : List (String × α)) (k k' : String) (v : α) :
    mapGet (mapSet m k v) k' = if k = k' then some v else mapGet m k' := by
  induction m with
  | nil => simp [mapSet, mapGet]
  | cons p rest ih =>
      obtain ⟨pk, pv⟩ := p
      by_cases h1 : pk = k
      · subst h1
        by_cases h2 : pk = k' <;> simp [mapSet, mapGet, h2]
      · by_cases h2 : pk = k'
        · subst h2
          have : ¬(k = pk) := fun h => h1 h.symm
          simp [mapSet, mapGet, h1, this]
        · simp [mapSet, mapGet, h1, h2, ih]

theorem mapGet_mapSet_self {α : Type} (m : List (String × α)) (k : String) (v : α) :
    mapGet (mapSet m k v) k = some v := by
  simp [mapGet_mapSet]

theorem mapGet_mapSet_ne {α : Type} (m : List (String × α)) {k k' : String} (v : α)
    (h : k ≠ k') : mapGet (mapSet m k v) k' = mapGet m k' := by
  simp [mapGet_mapSet, h]

theorem mapGet_mapSet_isSome {α : Type} (m : List (String × α)) (k k' : String) (v : α)
    (h : (mapGet m k').isSome) : (mapGet (mapSet m k v) k').isSome := by
  rw [mapGet_mapSet]
  by_cases hk : k = k' <;> simp [hk, h]

/-- The symbol map grows only by reference pushes: every key present
before is present after, its reference list extended on the right. -/
def RefExt (s1 s2 : List (String × Symbol)) : Prop :=
  ∀ k sym, mapGet s1 k = some sym →
    ∃ sym2 l, mapGet s2 k = some sym2 ∧ sym2.references = sym.references ++ l

theorem refExt_refl (s : List (String × Symbol)) : RefExt s s :=
  fun _ sym h => ⟨sym, [], h, by simp⟩

theorem refExt_trans {s1 s2 s3 : List (String × Symbol)}
    (h12 : RefExt s1 s2) (h23 : RefExt s2 s3) : RefExt s1 s3 := by
  intro k sym h
  obtain ⟨sym2, l1, hg2, he2⟩ := h12 k sym h
  obtain ⟨sym3, l2, hg3, he3⟩ := h23 k sym2 hg2
  exact ⟨sym3, l1 ++ l2, hg3, by rw [he3, he2, List.append_assoc]⟩

theorem refExt_addReference (s : List (String × Symbol)) (key uri : String)
    (position : Position) : RefExt s (addReference s key uri position) := by
  intro k sym h
  unfold addReference
  cases hg : mapGet s key with
  | none => exact ⟨sym, [], h, by simp⟩
  | some sym0 =>
      by_cases hk : key = k
      · subst hk
        rw [h] at hg
        cases hg
        exact ⟨{ sym with references := sym.references ++ [⟨uri, position⟩] },
          [⟨uri, position⟩], mapGet_mapSet_self _ _ _, rfl⟩
      · exact ⟨sym, [], by rw [mapGet_mapSet_ne _ _ hk]; exact h, by simp⟩

theorem refExt_extract (text uri : String) (position : Position)
    (vmap dq mq : List (String × String)) (s : List (String × Symbol)) :
    RefExt s (extractAndRecordReferences text uri position vmap dq mq s) := by
  unfold extractAndRecordReferences
  generalize scanRefs text = caps
  induction caps generalizing s with
  | nil => exact refExt_refl s
  | cons c cs ih =>
      rw [List.foldl_cons]
      refine refExt_trans ?_ (ih _)
      obtain ⟨cv, cf⟩ := c
      cases cf with
      | none =>
          cases hv : mapGet vmap cv with
          | none => simp [hv]; exact refExt_refl s
          | some key => simp [hv]; exact refExt_addReference s key uri position
      | some f =>
          cases hd : mapGet dq (cv ++ "." ++ f) with
          | none =>
              cases hm : mapGet mq (cv ++ "." ++ f) with
              | none => simp [hd, hm]; exact refExt_refl s
              | some mk => simp [hd, hm]; exact refExt_addReference s mk uri position
          | some dk =>
              cases hm : mapGet mq (cv ++ "." ++ f) with
              | none => simp [hd, hm]; exact refExt_addReference s dk uri position
              | some mk =>
                  simp [hd, hm]
                  exact refExt_trans (refExt_addReference s dk uri position)
                    (refExt_addReference _ mk uri position)

/-- Shape of every state step of the cross-reference, validation,
unused-view and cyclic-join passes at a given document URI: the name
maps and the per-file symbol index are untouched, symbols only gain
references, the flat diagnostics list is only appended to, and the
per-URI diagnostic groups of all other URIs are untouched. -/
def StepAt (uri0 : String) (st st' : AnalyzerState) : Prop :=
  st'.viewNameToKey = st.viewNameToKey ∧
  st'.dimensionQualifiedNameToKey = st.dimensionQualifiedNameToKey ∧
  st'.measureQualifiedNameToKey = st.measureQualifiedNameToKey ∧
  st'.symbolsByUri = st.symbolsByUri ∧
  RefExt st.symbols st'.symbols ∧
  (∃ l, st'.diagnostics = st.diagnostics ++ l) ∧
  (∀ u, u ≠ uri0 → mapGet st'.diagnosticsByUri u = mapGet st.diagnosticsByUri u)

theorem stepAt_refl (uri0 : String) (st : AnalyzerState) : StepAt uri0 st st :=
  ⟨rfl, rfl, rfl, rfl, refExt_refl _, ⟨[], by simp⟩, fun _ _ => rfl⟩

theorem stepAt_trans {uri0 : String} {st1 st2 st3 : AnalyzerState}
    (h12 : StepAt uri0 st1 st2) (h23 : StepAt uri0 st2 st3) : StepAt uri0 st1 st3 := by
  obtain ⟨v12, d12, m12, s12, r12, ⟨l12, e12⟩, b12⟩ := h12
  obtain ⟨v23, d23, m23, s23, r23, ⟨l23, e23⟩, b23⟩ := h23
  refine ⟨v23.trans v12, d23.trans d12, m23.trans m12, s23.trans s12,
    refExt_trans r12 r23, ⟨l12 ++ l23, ?_⟩, ?_⟩
  · rw [e23, e12, List.append_assoc]
  · intro u hu
    rw [b23 u hu, b12 u hu]

theorem stepAt_pushBoth (uri0 : String) (st : AnalyzerState) (d : Diagnostic) :
    StepAt uri0 st (pushBoth uri0 st d) := by
  refine ⟨rfl, rfl, rfl, rfl, refExt_refl _, ⟨[d], rfl⟩, ?_⟩
  intro u hu
  show mapGet (addDiagnosticForUri uri0 d st.diagnosticsByUri) u = _
  unfold addDiagnosticForUri
  exact mapGet_mapSet_ne _ _ (fun h => hu h.symm)

theorem stepAt_pushFlat (uri0 : String) (st : AnalyzerState) (d : Diagnostic) :
    StepAt uri0 st (pushFlat st d) :=
  ⟨rfl, rfl, rfl, rfl, refExt_refl _, ⟨[d], rfl⟩, fun _ _ => rfl⟩

theorem stepAt_setSymbols (uri0 : String) (st : AnalyzerState)
    (s' : List (String × Symbol)) (h : RefExt st.symbols s') :
    StepAt uri0 st { st with symbols := s' } :=
  ⟨rfl, rfl, rfl, rfl, h, ⟨[], by simp⟩, fun _ _ => rfl⟩

/-- A property preserved by every step of a fold is preserved by the
fold. -/
theorem foldl_preserve {α β : Type} (P : β → Prop) (f : β → α → β)
    (h : ∀ st x, P st → P (f st x)) :
    ∀ (l : List α) (st : β), P st → P (l.foldl f st) := by
  intro l
  induction l with
  | nil => intro st h0; exact h0
  | cons x xs ih => intro st h0; exact ih (f st x) (h st x h0)

theorem stepAt_foldl {α : Type} (uri0 : String) (f : AnalyzerState → α → AnalyzerState)
    (hf : ∀ st x, StepAt uri0 st (f st x)) :
    ∀ (l : List α) (st : AnalyzerState), StepAt uri0 st (l.foldl f st) := by
  intro l
  induction l with
  | nil => intro st; exact stepAt_refl uri0 st
  | cons x xs ih => intro st; exact stepAt_trans (hf st x) (ih (f st x))

/-- Fold over a list establishes a property when some member step
establishes it from an invariant that all steps preserve, and all steps
preserve the property once established. -/
theorem foldl_establish {α β : Type} (f : β → α → β) (P Q : β → Prop)
    (hQ : ∀ st x, Q st → Q (f st x)) (hP : ∀ st x, P st → P (f st x))
    {l : List α} {x : α} (hx : x ∈ l) (hest : ∀ st, Q st → P (f st x))
    (st0 : β) (hq0 : Q st0) : P (l.foldl f st0) := by
  obtain ⟨l1, l2, rfl⟩ := List.append_of_mem hx
  rw [List.foldl_append, List.foldl_cons]
  exact foldl_preserve P f hP l2 _ (hest _ (foldl_preserve Q f hQ l1 st0 hq0))

theorem stepAt_ifPushBoth (uri : String) (st : AnalyzerState) (b : Bool) (d : Diagnostic) :
    StepAt uri st (if b then pushBoth uri st d else st) := by
  cases b
  · simp only [Bool.false_eq_true, if_false]; exact stepAt_refl uri st
  · simp only [if_true]; exact stepAt_pushBoth uri st d

theorem stepAt_ifPushBothProp (uri : String) (st : AnalyzerState) (c : Prop) [Decidable c]
    (d : Diagnostic) : StepAt uri st (if c then pushBoth uri st d else st) := by
  by_cases h : c
  · rw [if_pos h]; exact stepAt_pushBoth uri st d
  · rw [if_neg h]; exact stepAt_refl uri st

theorem stepAt_ifSetSymbols (uri : String) (st : AnalyzerState) (b : Bool)
    (s' : List (String × Symbol)) (h : RefExt st.symbols s') :
    StepAt uri st (if b then { st with symbols := s' } else st) := by
  cases b
  · simp only [Bool.false_eq_true, if_false]; exact stepAt_refl uri st
  · simp only [if_true]; exact stepAt_setSymbols uri st s' h

theorem stepAt_crossRefExploreBase (uri : String) (e : ExploreNode) (st : AnalyzerState) :
    StepAt uri st (crossRefExploreBase uri e st) := by
  unfold crossRefExploreBase
  cases h : truthy e.baseView
  · simp only [Bool.false_eq_true, if_false]; exact stepAt_refl uri st
  · simp only [if_true]
    cases hv : mapGet st.viewNameToKey (e.baseView.getD "") with
    | some refKey =>
        simp only [hv]
        exact stepAt_setSymbols uri st _ (refExt_addReference _ _ _ _)
    | none =>
        simp only [hv]
        exact stepAt_pushBoth uri st _

theorem stepAt_crossRefJoinView (uri : String) (st : AnalyzerState) (j : JoinNode) :
    StepAt uri st (crossRefJoinView uri st j) := by
  unfold crossRefJoinView
  cases h : truthy j.view
  · simp only [Bool.false_eq_true, if_false]; exact stepAt_refl uri st
  · simp only [if_true]
    cases hv : mapGet st.viewNameToKey (j.view.getD "") with
    | some viewKey =>
        simp only [hv]
        exact stepAt_setSymbols uri st _ (refExt_addReference _ _ _ _)
    | none =>
        simp only [hv]
        exact stepAt_pushBoth uri st _

theorem stepAt_crossRefJoinSqlOnMissing (uri : String) (st : AnalyzerState) (j : JoinNode) :
    StepAt uri st (crossRefJoinSqlOnMissing uri st j) := by
  unfold crossRefJoinSqlOnMissing
  exact stepAt_ifPushBoth uri st _ _

theorem stepAt_crossRefJoinRelationship (uri : String) (st : AnalyzerState) (j : JoinNode) :
    StepAt uri st (crossRefJoinRelationship uri st j) := by
  unfold crossRefJoinRelationship
  cases h : truthy j.relationship
  · simp only [Bool.false_eq_true, if_false]; exact stepAt_refl uri st
  · simp only [if_true]
    by_cases hr : (j.relationship.getD "") ∈ validRelationships
    · rw [if_pos hr]; exact stepAt_refl uri st
    · rw [if_neg hr]; exact stepAt_pushBoth uri st _

theorem stepAt_crossRefJoinExtract (uri : String) (st : AnalyzerState) (j : JoinNode) :
    StepAt uri st (crossRefJoinExtract uri st j) := by
  unfold crossRefJoinExtract
  exact stepAt_ifSetSymbols uri st _ _ (refExt_extract _ _ _ _ _ _ _)

theorem stepAt_crossRefJoin (uri : String) (st : AnalyzerState) (j : JoinNode) :
    StepAt uri st (crossRefJoin uri st j) := by
  unfold crossRefJoin
  exact stepAt_trans (stepAt_crossRefJoinView uri st j)
    (stepAt_trans (stepAt_crossRefJoinSqlOnMissing uri _ j)
      (stepAt_trans (stepAt_crossRefJoinRelationship uri _ j)
        (stepAt_crossRefJoinExtract uri _ j)))

theorem stepAt_crossRefExplore (uri : String) (st : AnalyzerState) (e : ExploreNode) :
    StepAt uri st (crossRefExplore uri st e) := by
  unfold crossRefExplore
  exact stepAt_trans (stepAt_crossRefExploreBase uri e st)
    (stepAt_foldl uri (crossRefJoin uri) (stepAt_crossRefJoin uri) e.joins _)

theorem stepAt_dupFold (uri viewName : String) :
    ∀ (fields : List FieldInfo) (st : AnalyzerState) (seen : List String),
      StepAt uri st ((fields.foldl (dupFold uri viewName) (st, seen)).1) := by
  intro fields
  induction fields with
  | nil => intro st seen; exact stepAt_refl uri st
  | cons f fs ih =>
      intro st seen
      rw [List.foldl_cons]
      unfold dupFold
      by_cases h : f.name ∈ seen
      · rw [if_pos h]
        exact stepAt_trans (stepAt_pushBoth uri st _) (ih _ _)
      · rw [if_neg h]
        exact ih st _

theorem stepAt_measureStep (uri : String) (st : AnalyzerState) (m : MeasureNode) :
    StepAt uri st (measureStep uri st m) := by
  unfold measureStep
  exact stepAt_trans (stepAt_ifPushBoth uri st _ _)
    (stepAt_ifSetSymbols uri _ _ _ (refExt_extract _ _ _ _ _ _ _))

theorem stepAt_dimensionStep (uri : String) (st : AnalyzerState) (d : DimensionNode) :
    StepAt uri st (dimensionStep uri st d) := by
  unfold dimensionStep
  exact stepAt_trans (stepAt_ifPushBoth uri st _ _)
    (stepAt_trans (stepAt_ifPushBoth uri _ _ _)
      (stepAt_ifSetSymbols uri _ _ _ (refExt_extract _ _ _ _ _ _ _)))

theorem stepAt_checkDeprecatedParams (uri : String) (st : AnalyzerState)
    (position : Position) (parameters : List (String × ParameterValue)) :
    StepAt uri st (checkDeprecatedParams st position parameters) := by
  unfold checkDeprecatedParams
  refine stepAt_foldl uri _ ?_ parameters st
  intro st p
  by_cases h : p.1 ∈ deprecatedParams
  · rw [if_pos h]; exact stepAt_pushFlat uri st _
  · rw [if_neg h]; exact stepAt_refl uri st

theorem stepAt_namingFieldStep (uri : String) (st : AnalyzerState) (f : FieldInfo) :
    StepAt uri st (namingFieldStep uri st f) := by
  unfold namingFieldStep
  exact stepAt_ifPushBoth uri st _ _

theorem stepAt_validateView (uri : String) (st : AnalyzerState) (view : ViewNode) :
    StepAt uri st (validateView uri st view) := by
  dsimp only [validateView]
  exact stepAt_trans (stepAt_dupFold uri view.name view.fieldNodes st [])
    (stepAt_trans (stepAt_foldl uri (measureStep uri) (stepAt_measureStep uri) view.measures _)
      (stepAt_trans (stepAt_foldl uri (dimensionStep uri) (stepAt_dimensionStep uri) view.dimensions _)
        (stepAt_trans (stepAt_checkDeprecatedParams uri _ view.position view.parameters)
          (stepAt_trans (stepAt_foldl uri _ (fun st f => stepAt_checkDeprecatedParams uri st f.position f.parameters) view.fieldNodes _)
            (stepAt_trans (stepAt_ifPushBoth uri _ _ _)
              (stepAt_foldl uri (namingFieldStep uri) (stepAt_namingFieldStep uri) view.fieldNodes _))))))

theorem stepAt_crossValidateDoc (st : AnalyzerState) (doc : WorkspaceDocument) :
    StepAt doc.uri st (crossValidateDoc st doc) := by
  unfold crossValidateDoc
  cases hast : doc.ast with
  | none => exact stepAt_refl doc.uri st
  | some ast =>
      exact stepAt_trans
        (stepAt_foldl doc.uri (crossRefExplore doc.uri) (stepAt_crossRefExplore doc.uri) ast.explores st)
        (stepAt_foldl doc.uri (validateView doc.uri) (stepAt_validateView doc.uri) ast.views _)

theorem stepAt_unusedViewDoc (used : List String) (st : AnalyzerState)
    (doc : WorkspaceDocument) : StepAt doc.uri st (unusedViewDoc used st doc) := by
  unfold unusedViewDoc
  cases hast : doc.ast with
  | none => exact stepAt_refl doc.uri st
  | some ast =>
      refine stepAt_foldl doc.uri _ ?_ ast.views st
      intro st view
      by_cases h : view.name ∈ used
      · rw [if_pos h]; exact stepAt_refl doc.uri st
      · rw [if_neg h]; exact stepAt_pushBoth doc.uri st _

theorem stepAt_cyclicJoinExplore (uri : String) (st : AnalyzerState) (e : ExploreNode) :
    StepAt uri st (cyclicJoinExplore uri st e) := by
  unfold cyclicJoinExplore
  cases h : truthy e.baseView
  · simp only [Bool.false_eq_true, if_false]; exact stepAt_refl uri st
  · simp only [if_true]
    exact stepAt_ifPushBoth uri st _ _

theorem stepAt_cyclicJoinDoc (st : AnalyzerState) (doc : WorkspaceDocument) :
    StepAt doc.uri st (cyclicJoinDoc st doc) := by
  unfold cyclicJoinDoc
  cases hast : doc.ast with
  | none => exact stepAt_refl doc.uri st
  | some ast =>
      exact stepAt_foldl doc.uri (cyclicJoinExplore doc.uri) (stepAt_cyclicJoinExplore doc.uri) ast.explores st

/-- Chain a reflexive-transitive step relation through a fold. -/
theorem relFoldl {α β : Type} (R : β → β → Prop) (hrefl : ∀ b, R b b)
    (htrans : ∀ a b c, R a b → R b c → R a c)
    (f : β → α → β) (hf : ∀ b x, R b (f b x)) :
    ∀ (l : List α) (b : β), R b (l.foldl f b) := by
  intro l
  induction l with
  | nil => intro b; exact hrefl b
  | cons x xs ih => intro b; exact htrans _ _ _ (hf b x) (ih (f b x))

/-- Soundness of the bare view-name map: every key it stores is present
in the symbol map. -/
def VmapSound (st : AnalyzerState) : Prop :=
  ∀ n k, mapGet st.viewNameToKey n = some k → (mapGet st.symbols k).isSome

/-- Shape of every accumulator step of the symbol construction pass:
diagnostics and the per-file symbol index are untouched, symbol-map
keys are only added, and view-name-map soundness is preserved. -/
def Pass2Ok (acc acc' : AnalyzerState × List Symbol) : Prop :=
  acc'.1.diagnostics = acc.1.diagnostics ∧
  acc'.1.diagnosticsByUri = acc.1.diagnosticsByUri ∧
  acc'.1.symbolsByUri = acc.1.symbolsByUri ∧
  (∀ k, (mapGet acc.1.symbols k).isSome → (mapGet acc'.1.symbols k).isSome) ∧
  (VmapSound acc.1 → VmapSound acc'.1)

theorem pass2Ok_refl (acc : AnalyzerState × List Symbol) : Pass2Ok acc acc :=
  ⟨rfl, rfl, rfl, fun _ h => h, fun h => h⟩

theorem pass2Ok_trans (a b c : AnalyzerState × List Symbol)
    (hab : Pass2Ok a b) (hbc : Pass2Ok b c) : Pass2Ok a c := by
  obtain ⟨d1, u1, s1, g1, v1⟩ := hab
  obtain ⟨d2, u2, s2, g2, v2⟩ := hbc
  exact ⟨d2.trans d1, u2.trans u1, s2.trans s1,
    fun k h => g2 k (g1 k h), fun h => v2 (v1 h)⟩

theorem pass2Ok_addSymbol (acc : AnalyzerState × List Symbol) (key : String)
    (sym : Symbol) : Pass2Ok acc (addSymbol acc key sym) := by
  refine ⟨rfl, rfl, rfl, ?_, ?_⟩
  · intro k h
    exact mapGet_mapSet_isSome _ _ _ _ h
  · intro h n k hk
    exact mapGet_mapSet_isSome _ _ _ _ (h n k hk)

theorem pass2Ok_symbolizeModel (uri : String) (acc : AnalyzerState × List Symbol)
    (model : ModelNode) : Pass2Ok acc (symbolizeModel uri acc model) :=
  pass2Ok_addSymbol acc _ _

theorem pass2Ok_symbolizeDimension (uri viewName viewKey : String)
    (acc : AnalyzerState × List Symbol) (d : DimensionNode) :
    Pass2Ok acc (symbolizeDimension uri viewName viewKey acc d) := by
  refine ⟨rfl, rfl, rfl, ?_, ?_⟩
  · intro k h
    exact mapGet_mapSet_isSome _ _ _ _ h
  · intro h n k hk
    exact mapGet_mapSet_isSome _ _ _ _ (h n k hk)

theorem pass2Ok_symbolizeMeasure (uri viewName viewKey : String)
    (acc : AnalyzerState × List Symbol) (m : MeasureNode) :
    Pass2Ok acc (symbolizeMeasure uri viewName viewKey acc m) := by
  refine ⟨rfl, rfl, rfl, ?_, ?_⟩
  · intro k h
    exact mapGet_mapSet_isSome _ _ _ _ h
  · intro h n k hk
    exact mapGet_mapSet_isSome _ _ _ _ (h n k hk)

theorem pass2Ok_symbolizeViewCore (uri : String) (acc : AnalyzerState × List Symbol)
    (view : ViewNode) : Pass2Ok acc (symbolizeViewCore uri acc view) := by
  refine ⟨rfl, rfl, rfl, ?_, ?_⟩
  · intro k h
    exact mapGet_mapSet_isSome _ _ _ _ h
  · -- the entry just written points at the view symbol just registered
    intro h n k hk
    show (mapGet (mapSet acc.1.symbols (createSymbolKey "view" view.name) _) k).isSome
    have hk2 : mapGet (mapSet acc.1.viewNameToKey view.name
        (createSymbolKey "view" view.name)) n = some k := hk
    rw [mapGet_mapSet] at hk2
    by_cases hn : view.name = n
    · rw [if_pos hn] at hk2
      cases hk2
      rw [mapGet_mapSet_self]
      rfl
    · rw [if_neg hn] at hk2
      exact mapGet_mapSet_isSome _ _ _ _ (h n k hk2)

theorem pass2Ok_symbolizeFilter (uri viewName viewKey : String)
    (acc : AnalyzerState × List Symbol) (f : FilterNode) :
    Pass2Ok acc (symbolizeFilter uri viewName viewKey acc f) :=
  pass2Ok_addSymbol acc _ _

theorem pass2Ok_symbolizeParameterNode (uri viewName viewKey : String)
    (acc : AnalyzerState × List Symbol) (p : ParameterNode) :
    Pass2Ok acc (symbolizeParameterNode uri viewName viewKey acc p) :=
  pass2Ok_addSymbol acc _ _

theorem pass2Ok_symbolizeDimensionGroup (uri viewName viewKey : String)
    (acc : AnalyzerState × List Symbol) (g : DimensionGroupNode) :
    Pass2Ok acc (symbolizeDimensionGroup uri viewName viewKey acc g) :=
  pass2Ok_addSymbol acc _ _

theorem pass2Ok_symbolizeView (uri : String) (acc : AnalyzerState × List Symbol)
    (view : ViewNode) : Pass2Ok acc (symbolizeView uri acc view) := by
  dsimp only [symbolizeView]
  exact pass2Ok_trans _ _ _ (pass2Ok_symbolizeViewCore uri acc view)
    (pass2Ok_trans _ _ _
      (relFoldl Pass2Ok pass2Ok_refl pass2Ok_trans _
        (pass2Ok_symbolizeDimension uri view.name _) view.dimensions _)
      (pass2Ok_trans _ _ _
        (relFoldl Pass2Ok pass2Ok_refl pass2Ok_trans _
          (pass2Ok_symbolizeMeasure uri view.name _) view.measures _)
        (pass2Ok_trans _ _ _
          (relFoldl Pass2Ok pass2Ok_refl pass2Ok_trans _
            (pass2Ok_symbolizeFilter uri view.name _) view.filters _)
          (pass2Ok_trans _ _ _
            (relFoldl Pass2Ok pass2Ok_refl pass2Ok_trans _
              (pass2Ok_symbolizeParameterNode uri view.name _) view.parameterNodes _)
            (relFoldl Pass2Ok pass2Ok_refl pass2Ok_trans _
              (pass2Ok_symbolizeDimensionGroup uri view.name _) view.dimensionGroups _)))))

theorem pass2Ok_symbolizeExplore (uri : String) (acc : AnalyzerState × List Symbol)
    (explore : ExploreNode) : Pass2Ok acc (symbolizeExplore uri acc explore) := by
  dsimp only [symbolizeExplore]
  exact pass2Ok_trans _ _ _
    (pass2Ok_addSymbol acc (createSymbolKey "explore" explore.name)
      (createSymbol uri explore.name "explore" explore.position))
    (relFoldl Pass2Ok pass2Ok_refl pass2Ok_trans _
      (fun b j => pass2Ok_addSymbol b (createSymbolKey "join" (explore.name ++ "." ++ j.name))
        { createSymbol uri (explore.name ++ "." ++ j.name) "join" j.position with
            parent := some (createSymbolKey "explore" explore.name) })
      explore.joins _)

/-- The parse-error pass touches only the diagnostics accumulators. -/
def NonDiagEq (st st' : AnalyzerState) : Prop :=
  st'.symbols = st.symbols ∧ st'.symbolsByUri = st.symbolsByUri ∧
  st'.viewNameToKey = st.viewNameToKey ∧
  st'.dimensionQualifiedNameToKey = st.dimensionQualifiedNameToKey ∧
  st'.measureQualifiedNameToKey = st.measureQualifiedNameToKey

theorem parseErrorPass_nonDiag (docs : List WorkspaceDocument) (st : AnalyzerState) :
    NonDiagEq st (parseErrorPass docs st) := by
  unfold parseErrorPass
  refine relFoldl NonDiagEq (fun b => ⟨rfl, rfl, rfl, rfl, rfl⟩)
    (fun a b c h1 h2 => ⟨h2.1.trans h1.1, h2.2.1.trans h1.2.1, h2.2.2.1.trans h1.2.2.1,
      h2.2.2.2.1.trans h1.2.2.2.1, h2.2.2.2.2.trans h1.2.2.2.2⟩) _ ?_ docs st
  intro b doc
  cases h : (!doc.parseResult.success && doc.parseResult.error.isSome)
  · simp only [h, Bool.false_eq_true, if_false]
    exact ⟨rfl, rfl, rfl, rfl, rfl⟩
  · simp only [h, if_true]
    exact ⟨rfl, rfl, rfl, rfl, rfl⟩

theorem pass2Ok_docFolds (uri : String) (ast : LookMLFile)
    (acc : AnalyzerState × List Symbol) :
    Pass2Ok acc (ast.explores.foldl (symbolizeExplore uri)
      (ast.views.foldl (symbolizeView uri)
        (ast.models.foldl (symbolizeModel uri) acc))) :=
  pass2Ok_trans _ _ _
    (relFoldl Pass2Ok pass2Ok_refl pass2Ok_trans _ (pass2Ok_symbolizeModel uri) ast.models acc)
    (pass2Ok_trans _ _ _
      (relFoldl Pass2Ok pass2Ok_refl pass2Ok_trans _ (pass2Ok_symbolizeView uri) ast.views _)
      (relFoldl Pass2Ok pass2Ok_refl pass2Ok_trans _ (pass2Ok_symbolizeExplore uri) ast.explores _))

theorem pass2_symbolPassDoc (st : AnalyzerState) (doc : WorkspaceDocument) :
    (symbolPassDoc st doc).diagnostics = st.diagnostics ∧
    (symbolPassDoc st doc).diagnosticsByUri = st.diagnosticsByUri ∧
    (∀ u, u ≠ doc.uri → mapGet (symbolPassDoc st doc).symbolsByUri u = mapGet st.symbolsByUri u) ∧
    (∀ k, (mapGet st.symbols k).isSome → (mapGet (symbolPassDoc st doc).symbols k).isSome) ∧
    (VmapSound st → VmapSound (symbolPassDoc st doc)) := by
  cases hast : doc.ast with
  | none =>
      have h : symbolPassDoc st doc = st := by simp [symbolPassDoc, hast]
      rw [h]
      exact ⟨rfl, rfl, fun _ _ => rfl, fun _ h => h, fun h => h⟩
  | some ast =>
      have hacc := pass2Ok_docFolds doc.uri ast (st, [])
      obtain ⟨hd, hu, hs, hg, hv⟩ := hacc
      simp only [symbolPassDoc, hast]
      by_cases hemp : (ast.explores.foldl (symbolizeExplore doc.uri)
          (ast.views.foldl (symbolizeView doc.uri)
            (ast.models.foldl (symbolizeModel doc.uri) (st, [])))).2.isEmpty = true
      · rw [if_pos hemp]
        exact ⟨hd, hu, fun u _ => by rw [hs], hg, hv⟩
      · rw [if_neg hemp]
        refine ⟨hd, hu, ?_, hg, hv⟩
        intro u hne
        show mapGet (mapSet _ doc.uri _) u = _
        rw [mapGet_mapSet_ne _ _ (fun h => hne h.symm), hs]

theorem pass2_fold (l : List WorkspaceDocument) :
    ∀ st : AnalyzerState,
    (l.foldl symbolPassDoc st).diagnostics = st.diagnostics ∧
    (l.foldl symbolPassDoc st).diagnosticsByUri = st.diagnosticsByUri ∧
    (∀ u, (∀ d ∈ l, d.uri ≠ u) →
      mapGet (l.foldl symbolPassDoc st).symbolsByUri u = mapGet st.symbolsByUri u) ∧
    (∀ k, (mapGet st.symbols k).isSome → (mapGet (l.foldl symbolPassDoc st).symbols k).isSome) ∧
    (VmapSound st → VmapSound (l.foldl symbolPassDoc st)) := by
  induction l with
  | nil => intro st; exact ⟨rfl, rfl, fun _ _ => rfl, fun _ h => h, fun h => h⟩
  | cons d ds ih =>
      intro st
      obtain ⟨hd1, hu1, hs1, hg1, hv1⟩ := pass2_symbolPassDoc st d
      obtain ⟨hd2, hu2, hs2, hg2, hv2⟩ := ih (symbolPassDoc st d)
      rw [List.foldl_cons]
      refine ⟨hd2.trans hd1, hu2.trans hu1, ?_, fun k h => hg2 k (hg1 k h), fun h => hv2 (hv1 h)⟩
      intro u hall
      have h2 := hs2 u (fun x hx => hall x (List.mem_cons_of_mem d hx))
      rw [h2, hs1 u (hall d (List.mem_cons_self d ds)).symm]

/-- The view names a document contributes to the symbol table. -/
def viewNamesOfDoc (doc : WorkspaceDocument) : List String :=
  match doc.ast with
  | some ast => ast.views.map (fun v => v.name)
  | none => []

/-- The view names declared across a document list, in document order. -/
def declaredViews : List WorkspaceDocument → List String
  | [] => []
  | d :: ds => viewNamesOfDoc d ++ declaredViews ds

theorem declaredViews_parsed (docs : List WorkspaceDocument) :
    declaredViews (getParsedDocs docs) = declaredViews docs := by
  induction docs with
  | nil => rfl
  | cons d ds ih =>
      unfold getParsedDocs at ih ⊢
      rw [List.filter_cons]
      cases hast : d.ast with
      | none =>
          simp only [hast, Option.isSome_none, Bool.false_eq_true, if_false]
          show declaredViews _ = viewNamesOfDoc d ++ declaredViews ds
          rw [ih]
          simp [viewNamesOfDoc, hast]
      | some ast =>
          simp only [hast, Option.isSome_some, if_true]
          show viewNamesOfDoc d ++ declaredViews _ = viewNamesOfDoc d ++ declaredViews ds
          rw [ih]

theorem foldl_vmap_const {β : Type}
    (f : AnalyzerState × List Symbol → β → AnalyzerState × List Symbol)
    (hf : ∀ b x, (f b x).1.viewNameToKey = b.1.viewNameToKey) :
    ∀ (l : List β) (b : AnalyzerState × List Symbol),
      (l.foldl f b).1.viewNameToKey = b.1.viewNameToKey := by
  intro l
  induction l with
  | nil => intro b; rfl
  | cons x xs ih => intro b; rw [List.foldl_cons, ih, hf]

theorem symbolizeExplore_vmap (uri : String) (acc : AnalyzerState × List Symbol)
    (e : ExploreNode) : (symbolizeExplore uri acc e).1.viewNameToKey = acc.1.viewNameToKey := by
  dsimp only [symbolizeExplore]
  exact foldl_vmap_const
    (fun acc join =>
      addSymbol acc (createSymbolKey "join" (e.name ++ "." ++ join.name))
        { createSymbol uri (e.name ++ "." ++ join.name) "join" join.position with
            parent := some (createSymbolKey "explore" e.name) })
    (fun b x => rfl) e.joins _

theorem symbolizeView_vmap (uri : String) (acc : AnalyzerState × List Symbol)
    (view : ViewNode) : (symbolizeView uri acc view).1.viewNameToKey =
      mapSet acc.1.viewNameToKey view.name (createSymbolKey "view" view.name) := by
  dsimp only [symbolizeView]
  exact (foldl_vmap_const (symbolizeDimensionGroup uri view.name (createSymbolKey "view" view.name))
      (fun b x => rfl) view.dimensionGroups _).trans
    ((foldl_vmap_const (symbolizeParameterNode uri view.name (createSymbolKey "view" view.name))
        (fun b x => rfl) view.parameterNodes _).trans
      ((foldl_vmap_const (symbolizeFilter uri view.name (createSymbolKey "view" view.name))
          (fun b x => rfl) view.filters _).trans
        ((foldl_vmap_const (symbolizeMeasure uri view.name (createSymbolKey "view" view.name))
            (fun b x => rfl) view.measures _).trans
          ((foldl_vmap_const (symbolizeDimension uri view.name (createSymbolKey "view" view.name))
              (fun b x => rfl) view.dimensions _).trans rfl))))

theorem viewsFold_vmap_get (uri : String) (views : List ViewNode) :
    ∀ (acc : AnalyzerState × List Symbol) (n : String),
      mapGet ((views.foldl (symbolizeView uri) acc).1.viewNameToKey) n =
        if n ∈ views.map (fun v => v.name) then some (createSymbolKey "view" n)
        else mapGet acc.1.viewNameToKey n := by
  induction views with
  | nil => intro acc n; simp
  | cons v vs ih =>
      intro acc n
      rw [List.foldl_cons, ih, List.map_cons]
      by_cases h1 : n ∈ vs.map (fun v => v.name)
      · rw [if_pos h1, if_pos (List.mem_cons_of_mem _ h1)]
      · rw [if_neg h1, symbolizeView_vmap, mapGet_mapSet]
        by_cases h2 : v.name = n
        · rw [if_pos h2, if_pos (by rw [List.mem_cons]; exact Or.inl h2.symm), h2]
        · rw [if_neg h2, if_neg (by rw [List.mem_cons]; rintro (h | h); exact h2 h.symm; exact h1 h)]

theorem symbolPassDoc_vmap_get (st : AnalyzerState) (doc : WorkspaceDocument) (n : String) :
    mapGet (symbolPassDoc st doc).viewNameToKey n =
      if n ∈ viewNamesOfDoc doc then some (createSymbolKey "view" n)
      else mapGet st.viewNameToKey n := by
  cases hast : doc.ast with
  | none =>
      simp only [symbolPassDoc, viewNamesOfDoc, hast]
      simp
  | some ast =>
      simp only [symbolPassDoc, viewNamesOfDoc, hast]
      have hmodels : (ast.models.foldl (symbolizeModel doc.uri) (st, ([] : List Symbol))).1.viewNameToKey = st.viewNameToKey :=
        foldl_vmap_const (symbolizeModel doc.uri) (fun b x => rfl) ast.models (st, [])
      have hexpl : ∀ b : AnalyzerState × List Symbol,
          (ast.explores.foldl (symbolizeExplore doc.uri) b).1.viewNameToKey = b.1.viewNameToKey :=
        fun b => foldl_vmap_const (symbolizeExplore doc.uri) (symbolizeExplore_vmap doc.uri) ast.explores b
      by_cases hemp : (ast.explores.foldl (symbolizeExplore doc.uri)
          (ast.views.foldl (symbolizeView doc.uri)
            (ast.models.foldl (symbolizeModel doc.uri) (st, [])))).2.isEmpty = true
      · rw [if_pos hemp]
        show mapGet (ast.explores.foldl (symbolizeExplore doc.uri) _).1.viewNameToKey n = _
        rw [hexpl, viewsFold_vmap_get, hmodels]
      · rw [if_neg hemp]
        show mapGet (ast.explores.foldl (symbolizeExplore doc.uri) _).1.viewNameToKey n = _
        rw [hexpl, viewsFold_vmap_get, hmodels]

theorem pass2_fold_vmap_get (l : List WorkspaceDocument) :
    ∀ (st : AnalyzerState) (n : String),
      mapGet ((l.foldl symbolPassDoc st).viewNameToKey) n =
        if n ∈ declaredViews l then some (createSymbolKey "view" n)
        else mapGet st.viewNameToKey n := by
  induction l with
  | nil => intro st n; simp [declaredViews]
  | cons d ds ih =>
      intro st n
      rw [List.foldl_cons, ih]
      show _ = if n ∈ viewNamesOfDoc d ++ declaredViews ds then _ else _
      by_cases h1 : n ∈ declaredViews ds
      · rw [if_pos h1, if_pos (List.mem_append.mpr (Or.inr h1))]
      · rw [if_neg h1, symbolPassDoc_vmap_get]
        by_cases h2 : n ∈ viewNamesOfDoc d
        · rw [if_pos h2, if_pos (List.mem_append.mpr (Or.inl h2))]
        · rw [if_neg h2, if_neg (by rw [List.mem_append]; rintro (h | h); exact h2 h; exact h1 h)]

theorem truthy_some_ne {s : String} (h : s ≠ "") : truthy (some s) = true := by
  show (!s.isEmpty) = true
  cases hb : s.isEmpty
  · rfl
  · exact absurd ((String.isEmpty_iff s).mp hb) h

theorem addReference_get_same (s : List (String × Symbol)) (key uri : String)
    (position : Position) (sym0 : Symbol) (h : mapGet s key = some sym0) :
    mapGet (addReference s key uri position) key =
      some { sym0 with references := sym0.references ++ [⟨uri, position⟩] } := by
  unfold addReference
  rw [h]
  exact mapGet_mapSet_self _ _ _

/-- A symbol key holds at least one reference. -/
def HasRef (key : String) (st : AnalyzerState) : Prop :=
  ∃ sym, mapGet st.symbols key = some sym ∧ sym.references ≠ []

/-- The view-name map equals a fixed value and the key is present in
the symbol map. -/
def KeyPresent (key : String) (V : List (String × String)) (st : AnalyzerState) : Prop :=
  st.viewNameToKey = V ∧ (mapGet st.symbols key).isSome

/-- A diagnostic is already in the flat list. -/
def HasDiag (dg : Diagnostic) (st : AnalyzerState) : Prop := dg ∈ st.diagnostics

theorem hasRef_of_stepAt {u : String} {st st' : AnalyzerState} {key : String}
    (h : StepAt u st st') : HasRef key st → HasRef key st' := by
  rintro ⟨sym, hget, hne⟩
  obtain ⟨_, _, _, _, r, _, _⟩ := h
  obtain ⟨sym2, l, hg2, he2⟩ := r key sym hget
  refine ⟨sym2, hg2, ?_⟩
  rw [he2]
  intro hnil
  exact hne (List.append_eq_nil.mp hnil).1

theorem keyPresent_of_stepAt {u : String} {st st' : AnalyzerState} {key : String}
    {V : List (String × String)} (h : StepAt u st st') :
    KeyPresent key V st → KeyPresent key V st' := by
  rintro ⟨hv, hp⟩
  obtain ⟨v, _, _, _, r, _, _⟩ := h
  refine ⟨v.trans hv, ?_⟩
  obtain ⟨sym, hget⟩ := Option.isSome_iff_exists.mp hp
  obtain ⟨sym2, l, hg2, _⟩ := r key sym hget
  rw [hg2]
  rfl

theorem hasDiag_of_stepAt {u : String} {st st' : AnalyzerState} {dg : Diagnostic}
    (h : StepAt u st st') : HasDiag dg st → HasDiag dg st' := by
  intro hm
  obtain ⟨_, _, _, _, _, ⟨l, he⟩, _⟩ := h
  show dg ∈ st'.diagnostics
  rw [he]
  exact List.mem_append_left l hm

theorem crossRefExploreBase_resolves (uri : String) (e : ExploreNode) (st : AnalyzerState)
    (bv key : String) (hbv : e.baseView = some bv) (hne : bv ≠ "")
    (hget : mapGet st.viewNameToKey bv = some key)
    (hp : (mapGet st.symbols key).isSome) :
    HasRef key (crossRefExploreBase uri e st) := by
  unfold crossRefExploreBase
  rw [hbv]
  rw [if_pos (truthy_some_ne hne)]
  simp only [Option.getD_some]
  rw [hget]
  obtain ⟨sym0, hsym0⟩ := Option.isSome_iff_exists.mp hp
  refine ⟨{ sym0 with references := sym0.references ++ [⟨uri, e.position⟩] }, ?_, ?_⟩
  · exact addReference_get_same _ _ _ _ _ hsym0
  · simp

theorem crossRefExploreBase_undefined (uri : String) (e : ExploreNode) (st : AnalyzerState)
    (bv : String) (hbv : e.baseView = some bv) (hne : bv ≠ "")
    (hget : mapGet st.viewNameToKey bv = none) :
    HasDiag (undefinedViewDiag bv e.position) (crossRefExploreBase uri e st) := by
  unfold crossRefExploreBase
  rw [hbv]
  rw [if_pos (truthy_some_ne hne)]
  simp only [Option.getD_some]
  rw [hget]
  show _ ∈ st.diagnostics ++ [undefinedViewDiag bv e.position]
  exact List.mem_append_right _ (List.mem_singleton.mpr rfl)

theorem crossRefJoinView_resolves (uri : String) (st : AnalyzerState) (j : JoinNode)
    (jv key : String) (hjv : j.view = some jv) (hne : jv ≠ "")
    (hget : mapGet st.viewNameToKey jv = some key)
    (hp : (mapGet st.symbols key).isSome) :
    HasRef key (crossRefJoinView uri st j) := by
  unfold crossRefJoinView
  rw [hjv]
  rw [if_pos (truthy_some_ne hne)]
  simp only [Option.getD_some]
  rw [hget]
  obtain ⟨sym0, hsym0⟩ := Option.isSome_iff_exists.mp hp
  refine ⟨{ sym0 with references := sym0.references ++ [⟨uri, j.position⟩] }, ?_, ?_⟩
  · exact addReference_get_same _ _ _ _ _ hsym0
  · simp

theorem crossRefJoinView_undefined (uri : String) (st : AnalyzerState) (j : JoinNode)
    (jv : String) (hjv : j.view = some jv) (hne : jv ≠ "")
    (hget : mapGet st.viewNameToKey jv = none) :
    HasDiag (undefinedViewDiag jv j.position) (crossRefJoinView uri st j) := by
  unfold crossRefJoinView
  rw [hjv]
  rw [if_pos (truthy_some_ne hne)]
  simp only [Option.getD_some]
  rw [hget]
  show _ ∈ st.diagnostics ++ [undefinedViewDiag jv j.position]
  exact List.mem_append_right _ (List.mem_singleton.mpr rfl)

theorem crossRefJoin_resolves (uri : String) (st : AnalyzerState) (j : JoinNode)
    (jv key : String) (hjv : j.view = some jv) (hne : jv ≠ "")
    (hget : mapGet st.viewNameToKey jv = some key)
    (hp : (mapGet st.symbols key).isSome) :
    HasRef key (crossRefJoin uri st j) := by
  unfold crossRefJoin
  exact hasRef_of_stepAt (stepAt_crossRefJoinExtract uri _ j)
    (hasRef_of_stepAt (stepAt_crossRefJoinRelationship uri _ j)
      (hasRef_of_stepAt (stepAt_crossRefJoinSqlOnMissing uri _ j)
        (crossRefJoinView_resolves uri st j jv key hjv hne hget hp)))

theorem crossRefJoin_undefined (uri : String) (st : AnalyzerState) (j : JoinNode)
    (jv : String) (hjv : j.view = some jv) (hne : jv ≠ "")
    (hget : mapGet st.viewNameToKey jv = none) :
    HasDiag (undefinedViewDiag jv j.position) (crossRefJoin uri st j) := by
  unfold crossRefJoin
  exact hasDiag_of_stepAt (stepAt_crossRefJoinExtract uri _ j)
    (hasDiag_of_stepAt (stepAt_crossRefJoinRelationship uri _ j)
      (hasDiag_of_stepAt (stepAt_crossRefJoinSqlOnMissing uri _ j)
        (crossRefJoinView_undefined uri st j jv hjv hne hget)))

/-- The view-name map equals a fixed value. -/
def VmapEq (V : List (String × String)) (st : AnalyzerState) : Prop :=
  st.viewNameToKey = V

theorem vmapEq_of_stepAt {u : String} {st st' : AnalyzerState}
    {V : List (String × String)} (h : StepAt u st st') : VmapEq V st → VmapEq V st' :=
  fun hv => h.1.trans hv

theorem crossValidateDoc_reduce (st : AnalyzerState) (d : WorkspaceDocument)
    (ast : LookMLFile) (hast : d.ast = some ast) :
    crossValidateDoc st d =
      ast.views.foldl (validateView d.uri) (ast.explores.foldl (crossRefExplore d.uri) st) := by
  unfold crossValidateDoc
  rw [hast]

theorem crossValidateDoc_resolves_base (d : WorkspaceDocument) (ast : LookMLFile)
    (e : ExploreNode) (hast : d.ast = some ast) (he : e ∈ ast.explores)
    (bv key : String) (hbv : e.baseView = some bv) (hne : bv ≠ "")
    (V : List (String × String)) (hv : mapGet V bv = some key)
    (st : AnalyzerState) (hq : KeyPresent key V st) :
    HasRef key (crossValidateDoc st d) := by
  rw [crossValidateDoc_reduce st d ast hast]
  refine foldl_preserve (HasRef key) (validateView d.uri)
    (fun st v h => hasRef_of_stepAt (stepAt_validateView d.uri st v) h) ast.views _ ?_
  refine foldl_establish (crossRefExplore d.uri) (HasRef key) (KeyPresent key V)
    (fun st x h => keyPresent_of_stepAt (stepAt_crossRefExplore d.uri st x) h)
    (fun st x h => hasRef_of_stepAt (stepAt_crossRefExplore d.uri st x) h)
    he ?_ st hq
  intro st1 hq1
  unfold crossRefExplore
  refine foldl_preserve (HasRef key) (crossRefJoin d.uri)
    (fun st x h => hasRef_of_stepAt (stepAt_crossRefJoin d.uri st x) h) e.joins _ ?_
  exact crossRefExploreBase_resolves d.uri e st1 bv key hbv hne (by rw [hq1.1]; exact hv) hq1.2

theorem crossValidateDoc_undefined_base (d : WorkspaceDocument) (ast : LookMLFile)
    (e : ExploreNode) (hast : d.ast = some ast) (he : e ∈ ast.explores)
    (bv : String) (hbv : e.baseView = some bv) (hne : bv ≠ "")
    (V : List (String × String)) (hv : mapGet V bv = none)
    (st : AnalyzerState) (hq : VmapEq V st) :
    HasDiag (undefinedViewDiag bv e.position) (crossValidateDoc st d) := by
  rw [crossValidateDoc_reduce st d ast hast]
  refine foldl_preserve (HasDiag _) (validateView d.uri)
    (fun st v h => hasDiag_of_stepAt (stepAt_validateView d.uri st v) h) ast.views _ ?_
  refine foldl_establish (crossRefExplore d.uri) (HasDiag _) (VmapEq V)
    (fun st x h => vmapEq_of_stepAt (stepAt_crossRefExplore d.uri st x) h)
    (fun st x h => hasDiag_of_stepAt (stepAt_crossRefExplore d.uri st x) h)
    he ?_ st hq
  intro st1 hq1
  unfold crossRefExplore
  refine foldl_preserve (HasDiag _) (crossRefJoin d.uri)
    (fun st x h => hasDiag_of_stepAt (stepAt_crossRefJoin d.uri st x) h) e.joins _ ?_
  exact crossRefExploreBase_undefined d.uri e st1 bv hbv hne (by rw [hq1]; exact hv)

theorem crossValidateDoc_resolves_join (d : WorkspaceDocument) (ast : LookMLFile)
    (e : ExploreNode) (j : JoinNode) (hast : d.ast = some ast) (he : e ∈ ast.explores)
    (hj : j ∈ e.joins) (jv key : String) (hjv : j.view = some jv) (hne : jv ≠ "")
    (V : List (String × String)) (hv : mapGet V jv = some key)
    (st : AnalyzerState) (hq : KeyPresent key V st) :
    HasRef key (crossValidateDoc st d) := by
  rw [crossValidateDoc_reduce st d ast hast]
  refine foldl_preserve (HasRef key) (validateView d.uri)
    (fun st v h => hasRef_of_stepAt (stepAt_validateView d.uri st v) h) ast.views _ ?_
  refine foldl_establish (crossRefExplore d.uri) (HasRef key) (KeyPresent key V)
    (fun st x h => keyPresent_of_stepAt (stepAt_crossRefExplore d.uri st x) h)
    (fun st x h => hasRef_of_stepAt (stepAt_crossRefExplore d.uri st x) h)
    he ?_ st hq
  intro st1 hq1
  unfold crossRefExplore
  refine foldl_establish (crossRefJoin d.uri) (HasRef key) (KeyPresent key V)
    (fun st x h => keyPresent_of_stepAt (stepAt_crossRefJoin d.uri st x) h)
    (fun st x h => hasRef_of_stepAt (stepAt_crossRefJoin d.uri st x) h)
    hj ?_ _ (keyPresent_of_stepAt (stepAt_crossRefExploreBase d.uri e st1) hq1)
  intro st2 hq2
  exact crossRefJoin_resolves d.uri st2 j jv key hjv hne (by rw [hq2.1]; exact hv) hq2.2

theorem crossValidateDoc_undefined_join (d : WorkspaceDocument) (ast : LookMLFile)
    (e : ExploreNode) (j : JoinNode) (hast : d.ast = some ast) (he : e ∈ ast.explores)
    (hj : j ∈ e.joins) (jv : String) (hjv : j.view = some jv) (hne : jv ≠ "")
    (V : List (String × String)) (hv : mapGet V jv = none)
    (st : AnalyzerState) (hq : VmapEq V st) :
    HasDiag (undefinedViewDiag jv j.position) (crossValidateDoc st d) := by
  rw [crossValidateDoc_reduce st d ast hast]
  refine foldl_preserve (HasDiag _) (validateView d.uri)
    (fun st v h => hasDiag_of_stepAt (stepAt_validateView d.uri st v) h) ast.views _ ?_
  refine foldl_establish (crossRefExplore d.uri) (HasDiag _) (VmapEq V)
    (fun st x h => vmapEq_of_stepAt (stepAt_crossRefExplore d.uri st x) h)
    (fun st x h => hasDiag_of_stepAt (stepAt_crossRefExplore d.uri st x) h)
    he ?_ st hq
  intro st1 hq1
  unfold crossRefExplore
  refine foldl_establish (crossRefJoin d.uri) (HasDiag _) (VmapEq V)
    (fun st x h => vmapEq_of_stepAt (stepAt_crossRefJoin d.uri st x) h)
    (fun st x h => hasDiag_of_stepAt (stepAt_crossRefJoin d.uri st x) h)
    hj ?_ _ (vmapEq_of_stepAt (stepAt_crossRefExploreBase d.uri e st1) hq1)
  intro st2 hq2
  exact crossRefJoin_undefined d.uri st2 j jv hjv hne (by rw [hq2]; exact hv)

theorem analyzeSt_eq (docs : List WorkspaceDocument) : analyzeSt docs =
    (getParsedDocs docs).foldl cyclicJoinDoc
      ((getParsedDocs docs).foldl (unusedViewDoc (collectUsedViews (getParsedDocs docs)))
        ((getParsedDocs docs).foldl crossValidateDoc
          ((getParsedDocs docs).foldl symbolPassDoc (parseErrorPass docs initialState)))) := rfl

theorem analyze_symbols_eq (docs : List WorkspaceDocument) :
    (analyze docs).symbols = (analyzeSt docs).symbols := rfl

theorem analyze_diagnostics_eq (docs : List WorkspaceDocument) :
    (analyze docs).diagnostics = (analyzeSt docs).diagnostics := rfl

theorem st2_vmap_get (docs : List WorkspaceDocument) (n : String) :
    mapGet ((getParsedDocs docs).foldl symbolPassDoc (parseErrorPass docs initialState)).viewNameToKey n =
      if n ∈ declaredViews docs then some (createSymbolKey "view" n) else none := by
  rw [pass2_fold_vmap_get]
  rw [(parseErrorPass_nonDiag docs initialState).2.2.1]
  simp only [declaredViews_parsed]
  by_cases h : n ∈ declaredViews docs
  · rw [if_pos h, if_pos h]
  · rw [if_neg h, if_neg h]
    rfl

theorem st2_sound (docs : List WorkspaceDocument) :
    VmapSound ((getParsedDocs docs).foldl symbolPassDoc (parseErrorPass docs initialState)) := by
  refine (pass2_fold (getParsedDocs docs) (parseErrorPass docs initialState)).2.2.2.2 ?_
  intro n k hk
  rw [(parseErrorPass_nonDiag docs initialState).2.2.1] at hk
  simp [initialState, mapGet] at hk

/-- C3: for every explore of a parsed document, a truthy baseView or
join view naming a view declared anywhere in the workspace leaves that
view symbol (key view:name) with a non-empty reference list after
analysis, and a name resolving to no view produces an undefined-view
Error diagnostic at the explore or join position. -/
theorem crossref_references_and_undefined_view
    (docs : List WorkspaceDocument) (d : WorkspaceDocument) (ast : LookMLFile)
    (e : ExploreNode) (hd : d ∈ docs) (hast : d.ast = some ast)
    (he : e ∈ ast.explores) :
    (∀ bv, e.baseView = some bv → bv ≠ "" →
      ((bv ∈ declaredViews docs →
          ∃ sym, mapGet (analyze docs).symbols (createSymbolKey "view" bv) = some sym ∧
            sym.references ≠ []) ∧
       (bv ∉ declaredViews docs →
          undefinedViewDiag bv e.position ∈ (analyze docs).diagnostics))) ∧
    (∀ j, j ∈ e.joins → ∀ jv, j.view = some jv → jv ≠ "" →
      ((jv ∈ declaredViews docs →
          ∃ sym, mapGet (analyze docs).symbols (createSymbolKey "view" jv) = some sym ∧
            sym.references ≠ []) ∧
       (jv ∉ declaredViews docs →
          undefinedViewDiag jv j.position ∈ (analyze docs).diagnostics))) := by
  have hdp : d ∈ getParsedDocs docs := by
    refine List.mem_filter.mpr ⟨hd, ?_⟩
    rw [hast]
    rfl
  have hrefFinal : ∀ key,
      HasRef key ((getParsedDocs docs).foldl crossValidateDoc
        ((getParsedDocs docs).foldl symbolPassDoc (parseErrorPass docs initialState))) →
      ∃ sym, mapGet (analyze docs).symbols key = some sym ∧ sym.references ≠ [] := by
    intro key h3
    have h4 := foldl_preserve (HasRef key) (unusedViewDoc (collectUsedViews (getParsedDocs docs)))
      (fun st x hh => hasRef_of_stepAt (stepAt_unusedViewDoc _ st x) hh) (getParsedDocs docs) _ h3
    have h5 := foldl_preserve (HasRef key) cyclicJoinDoc
      (fun st x hh => hasRef_of_stepAt (stepAt_cyclicJoinDoc st x) hh) (getParsedDocs docs) _ h4
    rw [analyze_symbols_eq, analyzeSt_eq]
    exact h5
  have hdiagFinal : ∀ dg : Diagnostic,
      HasDiag dg ((getParsedDocs docs).foldl crossValidateDoc
        ((getParsedDocs docs).foldl symbolPassDoc (parseErrorPass docs initialState))) →
      dg ∈ (analyze docs).diagnostics := by
    intro dg h3
    have h4 := foldl_preserve (HasDiag dg) (unusedViewDoc (collectUsedViews (getParsedDocs docs)))
      (fun st x hh => hasDiag_of_stepAt (stepAt_unusedViewDoc _ st x) hh) (getParsedDocs docs) _ h3
    have h5 := foldl_preserve (HasDiag dg) cyclicJoinDoc
      (fun st x hh => hasDiag_of_stepAt (stepAt_cyclicJoinDoc st x) hh) (getParsedDocs docs) _ h4
    rw [analyze_diagnostics_eq, analyzeSt_eq]
    exact h5
  constructor
  · intro bv hbv hne
    constructor
    · intro hdecl
      refine hrefFinal (createSymbolKey "view" bv) ?_
      refine foldl_establish crossValidateDoc (HasRef _)
        (KeyPresent (createSymbolKey "view" bv) (((getParsedDocs docs).foldl symbolPassDoc (parseErrorPass docs initialState)).viewNameToKey))
        (fun st x h => keyPresent_of_stepAt (stepAt_crossValidateDoc st x) h)
        (fun st x h => hasRef_of_stepAt (stepAt_crossValidateDoc st x) h)
        hdp ?_ _ ⟨rfl, ?_⟩
      · intro st hq
        refine crossValidateDoc_resolves_base d ast e hast he bv _ hbv hne _ ?_ st hq
        rw [st2_vmap_get, if_pos hdecl]
      · exact st2_sound docs bv _ (by rw [st2_vmap_get, if_pos hdecl])
    · intro hdecl
      refine hdiagFinal _ ?_
      refine foldl_establish crossValidateDoc (HasDiag _)
        (VmapEq (((getParsedDocs docs).foldl symbolPassDoc (parseErrorPass docs initialState)).viewNameToKey))
        (fun st x h => vmapEq_of_stepAt (stepAt_crossValidateDoc st x) h)
        (fun st x h => hasDiag_of_stepAt (stepAt_crossValidateDoc st x) h)
        hdp ?_ _ rfl
      intro st hq
      refine crossValidateDoc_undefined_base d ast e hast he bv hbv hne _ ?_ st hq
      rw [st2_vmap_get, if_neg hdecl]
  · intro j hj jv hjv hne
    constructor
    · intro hdecl
      refine hrefFinal (createSymbolKey "view" jv) ?_
      refine foldl_establish crossValidateDoc (HasRef _)
        (KeyPresent (createSymbolKey "view" jv) (((getParsedDocs docs).foldl symbolPassDoc (parseErrorPass docs initialState)).viewNameToKey))
        (fun st x h => keyPresent_of_stepAt (stepAt_crossValidateDoc st x) h)
        (fun st x h => hasRef_of_stepAt (stepAt_crossValidateDoc st x) h)
        hdp ?_ _ ⟨rfl, ?_⟩
      · intro st hq
        refine crossValidateDoc_resolves_join d ast e j hast he hj jv _ hjv hne _ ?_ st hq
        rw [st2_vmap_get, if_pos hdecl]
      · exact st2_sound docs jv _ (by rw [st2_vmap_get, if_pos hdecl])
    · intro hdecl
      refine hdiagFinal _ ?_
      refine foldl_establish crossValidateDoc (HasDiag _)
        (VmapEq (((getParsedDocs docs).foldl symbolPassDoc (parseErrorPass docs initialState)).viewNameToKey))
        (fun st x h => vmapEq_of_stepAt (stepAt_crossValidateDoc st x) h)
        (fun st x h => hasDiag_of_stepAt (stepAt_crossValidateDoc st x) h)
        hdp ?_ _ rfl
      intro st hq
      refine crossValidateDoc_undefined_join d ast e j hast he hj jv hjv hne _ ?_ st hq
      rw [st2_vmap_get, if_neg hdecl]

/-- Witness for C3: in the exDoc workspace, the base view a referenced
by explore e ends up with a non-empty reference list on its view
symbol. -/
theorem crossref_references_witness :
    ∃ sym, mapGet (analyze [exDoc]).symbols (createSymbolKey "view" "a") = some sym ∧
      sym.references ≠ [] :=
  ((crossref_references_and_undefined_view [exDoc] exDoc exFile exExplore
      (List.mem_singleton.mpr rfl) rfl (List.mem_singleton.mpr rfl)).1
    "a" rfl (by decide)).1 (by decide)

/-- The duplicate-field diagnostics the analyze dup fold emits for one
view, extracted as a pure list (same fold as dupFold, diagnostics
only): a name already seen emits an Error at this occurrence. -/
def dupDiagsGo (viewName : String) : List FieldInfo → List String → List Diagnostic
  | [], _ => []
  | f :: fs, seen =>
      if f.name ∈ seen then mkDupDiag viewName f :: dupDiagsGo viewName fs seen
      else dupDiagsGo viewName fs (f.name :: seen)

/-- All duplicate-field diagnostics of one view, in emission order. -/
def duplicateFieldDiags (view : ViewNode) : List Diagnostic :=
  dupDiagsGo view.name view.fieldNodes []

/-- The duplicate-field diagnostics of a view list, in order. -/
def dupDiagsOfViews : List ViewNode → List Diagnostic
  | [] => []
  | v :: vs => duplicateFieldDiags v ++ dupDiagsOfViews vs

/-- The duplicate-field diagnostics a document contributes. -/
def dupDiagsOfDoc (d : WorkspaceDocument) : List Diagnostic :=
  match d.ast with
  | some ast => dupDiagsOfViews ast.views
  | none => []

/-- The duplicate-field diagnostics of a document list, in order. -/
def dupDiagsOfDocs : List WorkspaceDocument → List Diagnostic
  | [] => []
  | d :: ds => dupDiagsOfDoc d ++ dupDiagsOfDocs ds

/-- Classifier of duplicate-field diagnostics by code. -/
def dupP (dg : Diagnostic) : Bool := dg.code = some "duplicate-field"

theorem dupFold_diags (uri viewName : String) :
    ∀ (fields : List FieldInfo) (st : AnalyzerState) (seen : List String),
      ((fields.foldl (dupFold uri viewName) (st, seen)).1).diagnostics =
        st.diagnostics ++ dupDiagsGo viewName fields seen := by
  intro fields
  induction fields with
  | nil => intro st seen; simp [dupDiagsGo]
  | cons f fs ih =>
      intro st seen
      rw [List.foldl_cons]
      unfold dupDiagsGo
      by_cases h : f.name ∈ seen
      · have hstep : dupFold uri viewName (st, seen) f =
            (pushBoth uri st (mkDupDiag viewName f), seen) := by
          unfold dupFold
          rw [if_pos h]
        rw [hstep, if_pos h, ih]
        show (st.diagnostics ++ [mkDupDiag viewName f]) ++ _ = _
        rw [List.append_assoc]
        rfl
      · have hstep : dupFold uri viewName (st, seen) f = (st, f.name :: seen) := by
          unfold dupFold
          rw [if_neg h]
        rw [hstep, if_neg h, ih]

theorem filter_dupP_push_ne (l : List Diagnostic) (dg : Diagnostic)
    (h : dupP dg = false) : (l ++ [dg]).filter dupP = l.filter dupP := by
  rw [List.filter_append]
  simp [List.filter, h]

theorem dupDiagsGo_filter_dupP (viewName : String) :
    ∀ (fields : List FieldInfo) (seen : List String),
      (dupDiagsGo viewName fields seen).filter dupP = dupDiagsGo viewName fields seen := by
  intro fields
  induction fields with
  | nil => intro seen; rfl
  | cons f fs ih =>
      intro seen
      unfold dupDiagsGo
      by_cases h : f.name ∈ seen
      · rw [if_pos h]
        rw [List.filter_cons]
        rw [if_pos (by rfl : dupP (mkDupDiag viewName f) = true), ih]
      · rw [if_neg h, ih]

theorem filterDup_crossRefExploreBase (uri : String) (e : ExploreNode) (st : AnalyzerState) :
    (crossRefExploreBase uri e st).diagnostics.filter dupP = st.diagnostics.filter dupP := by
  unfold crossRefExploreBase
  cases h : truthy e.baseView
  · simp only [Bool.false_eq_true, if_false]
  · simp only [if_true]
    cases hv : mapGet st.viewNameToKey (e.baseView.getD "") with
    | some refKey => rfl
    | none => exact filter_dupP_push_ne _ _ rfl

theorem filterDup_crossRefJoin (uri : String) (st : AnalyzerState) (j : JoinNode) :
    (crossRefJoin uri st j).diagnostics.filter dupP = st.diagnostics.filter dupP := by
  have h1 : ∀ st1 : AnalyzerState, (crossRefJoinView uri st1 j).diagnostics.filter dupP =
      st1.diagnostics.filter dupP := by
    intro st1
    unfold crossRefJoinView
    cases h : truthy j.view
    · simp only [Bool.false_eq_true, if_false]
    · simp only [if_true]
      cases hv : mapGet st1.viewNameToKey (j.view.getD "") with
      | some viewKey => rfl
      | none => exact filter_dupP_push_ne _ _ rfl
  have h2 : ∀ st1 : AnalyzerState, (crossRefJoinSqlOnMissing uri st1 j).diagnostics.filter dupP =
      st1.diagnostics.filter dupP := by
    intro st1
    unfold crossRefJoinSqlOnMissing
    cases h : (!truthy j.sqlOn)
    · simp only [Bool.false_eq_true, if_false]
    · simp only [if_true]
      exact filter_dupP_push_ne _ _ rfl
  have h3 : ∀ st1 : AnalyzerState, (crossRefJoinRelationship uri st1 j).diagnostics.filter dupP =
      st1.diagnostics.filter dupP := by
    intro st1
    unfold crossRefJoinRelationship
    cases h : truthy j.relationship
    · simp only [Bool.false_eq_true, if_false]
    · simp only [if_true]
      by_cases hr : (j.relationship.getD "") ∈ validRelationships
      · rw [if_pos hr]
      · rw [if_neg hr]
        exact filter_dupP_push_ne _ _ rfl
  have h4 : ∀ st1 : AnalyzerState, (crossRefJoinExtract uri st1 j).diagnostics.filter dupP =
      st1.diagnostics.filter dupP := by
    intro st1
    unfold crossRefJoinExtract
    cases h : truthy j.sqlOn
    · simp only [Bool.false_eq_true, if_false]
    · simp only [if_true]
  unfold crossRefJoin
  rw [h4, h3, h2, h1]

theorem filterDup_crossRefExplore (uri : String) (st : AnalyzerState) (e : ExploreNode) :
    (crossRefExplore uri st e).diagnostics.filter dupP = st.diagnostics.filter dupP := by
  unfold crossRefExplore
  rw [relFoldl (fun a b : AnalyzerState => b.diagnostics.filter dupP = a.diagnostics.filter dupP)
    (fun _ => rfl) (fun _ _ _ hab hbc => hbc.trans hab) (crossRefJoin uri)
    (fun b x => filterDup_crossRefJoin uri b x) e.joins (crossRefExploreBase uri e st)]
  exact filterDup_crossRefExploreBase uri e st

/-- Duplicate-field-filtered diagnostics unchanged by a state step. -/
def FD (a b : AnalyzerState) : Prop :=
  b.diagnostics.filter dupP = a.diagnostics.filter dupP

theorem fd_refl (a : AnalyzerState) : FD a a := rfl

theorem fd_trans (a b c : AnalyzerState) (hab : FD a b) (hbc : FD b c) : FD a c :=
  hbc.trans hab

theorem fd_ifPushBoth (uri : String) (st : AnalyzerState) (b : Bool) (d : Diagnostic)
    (h : dupP d = false) : FD st (if b then pushBoth uri st d else st) := by
  cases b
  · simp only [Bool.false_eq_true, if_false]; exact fd_refl st
  · simp only [if_true]; exact filter_dupP_push_ne _ _ h

theorem fd_measureStep (uri : String) (st : AnalyzerState) (m : MeasureNode) :
    FD st (measureStep uri st m) := by
  dsimp only [measureStep]
  split
  · exact fd_ifPushBoth uri st _ _ (by rfl)
  · exact fd_ifPushBoth uri st _ _ (by rfl)

theorem fd_dimensionStep (uri : String) (st : AnalyzerState) (d : DimensionNode) :
    FD st (dimensionStep uri st d) := by
  dsimp only [dimensionStep]
  split
  · exact fd_trans _ _ _ (fd_ifPushBoth uri st _ _ (by rfl)) (fd_ifPushBoth uri _ _ _ (by rfl))
  · exact fd_trans _ _ _ (fd_ifPushBoth uri st _ _ (by rfl)) (fd_ifPushBoth uri _ _ _ (by rfl))

theorem fd_checkDeprecatedParams (uri : String) (st : AnalyzerState)
    (position : Position) (parameters : List (String × ParameterValue)) :
    FD st (checkDeprecatedParams st position parameters) := by
  unfold checkDeprecatedParams
  refine relFoldl FD fd_refl fd_trans _ ?_ parameters st
  intro b p
  by_cases h : p.1 ∈ deprecatedParams
  · rw [if_pos h]
    exact filter_dupP_push_ne _ _ rfl
  · rw [if_neg h]
    exact fd_refl b

theorem fd_namingFieldStep (uri : String) (st : AnalyzerState) (f : FieldInfo) :
    FD st (namingFieldStep uri st f) := by
  unfold namingFieldStep
  exact fd_ifPushBoth uri st _ _ (by rfl)

theorem filterDup_validateView (uri : String) (st : AnalyzerState) (view : ViewNode) :
    (validateView uri st view).diagnostics.filter dupP =
      st.diagnostics.filter dupP ++ duplicateFieldDiags view := by
  have h1 : FD ((view.fieldNodes.foldl (dupFold uri view.name) (st, [])).1)
      (validateView uri st view) := by
    dsimp only [validateView]
    exact fd_trans _ _ _
      (relFoldl FD fd_refl fd_trans _ (fd_measureStep uri) view.measures _)
      (fd_trans _ _ _
        (relFoldl FD fd_refl fd_trans _ (fd_dimensionStep uri) view.dimensions _)
        (fd_trans _ _ _ (fd_checkDeprecatedParams uri _ view.position view.parameters)
          (fd_trans _ _ _
            (relFoldl FD fd_refl fd_trans _
              (fun b f => fd_checkDeprecatedParams uri b f.position f.parameters) view.fieldNodes _)
            (fd_trans _ _ _ (fd_ifPushBoth uri _ _ _ (by rfl))
              (relFoldl FD fd_refl fd_trans _ (fd_namingFieldStep uri) view.fieldNodes _)))))
  show (validateView uri st view).diagnostics.filter dupP = _
  rw [h1, dupFold_diags, List.filter_append, dupDiagsGo_filter_dupP]
  rfl

theorem filterDup_viewsFold (uri : String) (views : List ViewNode) :
    ∀ st : AnalyzerState,
      ((views.foldl (validateView uri) st).diagnostics).filter dupP =
        st.diagnostics.filter dupP ++ dupDiagsOfViews views := by
  induction views with
  | nil => intro st; simp [dupDiagsOfViews]
  | cons v vs ih =>
      intro st
      rw [List.foldl_cons, ih, filterDup_validateView]
      show _ = st.diagnostics.filter dupP ++ (duplicateFieldDiags v ++ dupDiagsOfViews vs)
      rw [List.append_assoc]

theorem filterDup_crossValidateDoc (st : AnalyzerState) (d : WorkspaceDocument) :
    (crossValidateDoc st d).diagnostics.filter dupP =
      st.diagnostics.filter dupP ++ dupDiagsOfDoc d := by
  cases hast : d.ast with
  | none =>
      have h : crossValidateDoc st d = st := by
        unfold crossValidateDoc
        rw [hast]
      rw [h]
      simp [dupDiagsOfDoc, hast]
  | some ast =>
      rw [crossValidateDoc_reduce st d ast hast, filterDup_viewsFold]
      have hexpl : FD st (ast.explores.foldl (crossRefExplore d.uri) st) :=
        relFoldl FD fd_refl fd_trans _ (filterDup_crossRefExplore d.uri) ast.explores st
      rw [hexpl]
      simp [dupDiagsOfDoc, hast]

theorem filterDup_docsFold (l : List WorkspaceDocument) :
    ∀ st : AnalyzerState,
      ((l.foldl crossValidateDoc st).diagnostics).filter dupP =
        st.diagnostics.filter dupP ++ dupDiagsOfDocs l := by
  induction l with
  | nil => intro st; simp [dupDiagsOfDocs]
  | cons d ds ih =>
      intro st
      rw [List.foldl_cons, ih, filterDup_crossValidateDoc]
      show _ = st.diagnostics.filter dupP ++ (dupDiagsOfDoc d ++ dupDiagsOfDocs ds)
      rw [List.append_assoc]

theorem fd_parseErrorPass (docs : List WorkspaceDocument) (st : AnalyzerState) :
    FD st (parseErrorPass docs st) := by
  unfold parseErrorPass
  refine relFoldl FD fd_refl fd_trans _ ?_ docs st
  intro b doc
  cases h : (!doc.parseResult.success && doc.parseResult.error.isSome)
  · simp only [h, Bool.false_eq_true, if_false]; exact fd_refl b
  · simp only [h, if_true]
    exact filter_dupP_push_ne _ _ rfl

theorem fd_unusedViewDoc (used : List String) (st : AnalyzerState)
    (doc : WorkspaceDocument) : FD st (unusedViewDoc used st doc) := by
  unfold unusedViewDoc
  cases hast : doc.ast with
  | none => exact fd_refl st
  | some ast =>
      refine relFoldl FD fd_refl fd_trans _ ?_ ast.views st
      intro b view
      by_cases h : view.name ∈ used
      · rw [if_pos h]; exact fd_refl b
      · rw [if_neg h]; exact filter_dupP_push_ne _ _ rfl

theorem fd_cyclicJoinDoc (st : AnalyzerState) (doc : WorkspaceDocument) :
    FD st (cyclicJoinDoc st doc) := by
  unfold cyclicJoinDoc
  cases hast : doc.ast with
  | none => exact fd_refl st
  | some ast =>
      refine relFoldl FD fd_refl fd_trans _ ?_ ast.explores st
      intro b e
      unfold cyclicJoinExplore
      cases h : truthy e.baseView
      · simp only [Bool.false_eq_true, if_false]; exact fd_refl b
      · simp only [if_true]
        exact fd_ifPushBoth doc.uri b _ _ (by rfl)

theorem analyze_filterDup (docs : List WorkspaceDocument) :
    ((analyze docs).diagnostics).filter dupP = dupDiagsOfDocs (getParsedDocs docs) := by
  rw [analyze_diagnostics_eq, analyzeSt_eq]
  have h6 : FD ((getParsedDocs docs).foldl (unusedViewDoc (collectUsedViews (getParsedDocs docs)))
      ((getParsedDocs docs).foldl crossValidateDoc
        ((getParsedDocs docs).foldl symbolPassDoc (parseErrorPass docs initialState))))
      ((getParsedDocs docs).foldl cyclicJoinDoc
        ((getParsedDocs docs).foldl (unusedViewDoc (collectUsedViews (getParsedDocs docs)))
          ((getParsedDocs docs).foldl crossValidateDoc
            ((getParsedDocs docs).foldl symbolPassDoc (parseErrorPass docs initialState))))) :=
    relFoldl FD fd_refl fd_trans cyclicJoinDoc (fun b x => fd_cyclicJoinDoc b x) (getParsedDocs docs) _
  have h5 : FD ((getParsedDocs docs).foldl crossValidateDoc
      ((getParsedDocs docs).foldl symbolPassDoc (parseErrorPass docs initialState)))
      ((getParsedDocs docs).foldl (unusedViewDoc (collectUsedViews (getParsedDocs docs)))
        ((getParsedDocs docs).foldl crossValidateDoc
          ((getParsedDocs docs).foldl symbolPassDoc (parseErrorPass docs initialState)))) :=
    relFoldl FD fd_refl fd_trans _ (fun b x => fd_unusedViewDoc _ b x) (getParsedDocs docs) _
  rw [h6, h5, filterDup_docsFold]
  have h2 : ((getParsedDocs docs).foldl symbolPassDoc (parseErrorPass docs initialState)).diagnostics =
      (parseErrorPass docs initialState).diagnostics :=
    (pass2_fold (getParsedDocs docs) (parseErrorPass docs initialState)).1
  rw [h2, fd_parseErrorPass docs initialState]
  rfl

theorem dupMessage_inj {a b v : String} (h : dupMessage a v = dupMessage b v) : a = b := by
  have h2 := congrArg String.data h
  simp only [dupMessage, String.data_append, List.append_assoc] at h2
  have h3 := List.append_cancel_left h2
  have h4 := List.append_cancel_left h3
  exact String.ext (List.append_cancel_right h4)

theorem mkDupDiag_message (viewName : String) (f : FieldInfo) :
    (mkDupDiag viewName f).message = dupMessage f.name viewName := rfl

theorem dupDiagsGo_filter_msg (viewName n : String) :
    ∀ (fields : List FieldInfo) (seen : List String),
      (dupDiagsGo viewName fields seen).filter
          (fun dg => dg.message = dupMessage n viewName) =
        if n ∈ seen then
          (fields.filter (fun f => f.name = n)).map (mkDupDiag viewName)
        else ((fields.filter (fun f => f.name = n)).tail).map (mkDupDiag viewName) := by
  intro fields
  induction fields with
  | nil =>
      intro seen
      by_cases h : n ∈ seen <;> simp [dupDiagsGo, h]
  | cons f fs ih =>
      intro seen
      unfold dupDiagsGo
      by_cases hn : f.name = n
      · subst hn
        by_cases hmem : f.name ∈ seen
        · rw [if_pos hmem]
          simp only [List.filter_cons]
          rw [ih seen]
          simp [mkDupDiag_message, hmem]
        · rw [if_neg hmem]
          rw [ih (f.name :: seen)]
          simp [List.filter_cons, hmem, List.mem_cons_self]
      · have hpf : ¬((mkDupDiag viewName f).message = dupMessage n viewName) := by
          rw [mkDupDiag_message]
          intro hcontra
          exact hn (dupMessage_inj hcontra)
        by_cases hmem : f.name ∈ seen
        · rw [if_pos hmem]
          simp only [List.filter_cons]
          rw [ih seen]
          simp [hpf, hn]
        · rw [if_neg hmem]
          rw [ih (f.name :: seen)]
          have hcond : (n ∈ f.name :: seen) ↔ (n ∈ seen) := by
            rw [List.mem_cons]
            constructor
            · rintro (h | h)
              · exact absurd h.symm hn
              · exact h
            · exact Or.inr
          by_cases h2 : n ∈ seen
          · rw [if_pos (hcond.mpr h2), if_pos h2]
            simp [List.filter_cons, hn]
          · rw [if_neg (fun hx => h2 (hcond.mp hx)), if_neg h2]
            simp [List.filter_cons, hn]

theorem dupDiagsOfViews_append (l1 l2 : List ViewNode) :
    dupDiagsOfViews (l1 ++ l2) = dupDiagsOfViews l1 ++ dupDiagsOfViews l2 := by
  induction l1 with
  | nil => rfl
  | cons v vs ih =>
      show duplicateFieldDiags v ++ dupDiagsOfViews (vs ++ l2) = _
      rw [ih]
      rw [← List.append_assoc]
      rfl

theorem dupDiagsOfDocs_append (l1 l2 : List WorkspaceDocument) :
    dupDiagsOfDocs (l1 ++ l2) = dupDiagsOfDocs l1 ++ dupDiagsOfDocs l2 := by
  induction l1 with
  | nil => rfl
  | cons d ds ih =>
      show dupDiagsOfDoc d ++ dupDiagsOfDocs (ds ++ l2) = _
      rw [ih]
      rw [← List.append_assoc]
      rfl

/-- A view with two dimensions sharing the name id. -/
def exDupDim1 : DimensionNode :=
  { name := "id", position := ⟨2, 2, 3, 3⟩, parameters := [],
    dataType := some "number", sql := some "x", hidden := false, primaryKey := false }

/-- The second dimension named id. -/
def exDupDim2 : DimensionNode :=
  { name := "id", position := ⟨4, 2, 5, 3⟩, parameters := [],
    dataType := some "number", sql := some "y", hidden := false, primaryKey := false }

/-- The view holding the duplicate dimensions. -/
def exDupView : ViewNode :=
  { emptyView "w" with dimensions := [exDupDim1, exDupDim2] }

/-- A file holding only the duplicate-field view. -/
def exDupFile : LookMLFile :=
  { fileName := "w.lkml", position := ⟨0, 0, 6, 0⟩, views := [exDupView],
    explores := [], models := [], dashboards := [] }

/-- The parsed document holding exDupFile. -/
def exDupDoc : WorkspaceDocument :=
  { uri := "file:///w.lkml", fileName := "w.lkml", content := "c",
    ast := some exDupFile,
    parseResult := { success := true, ast := some exDupFile, error := none },
    lastModified := 0 }

/-- C4: the duplicate-field diagnostics the analysis emits are exactly
the per-view duplicate lists (in document and view order); the view v
occurs in that accounting; and within v, the duplicate-field
diagnostics whose message names the field n are exactly one per
occurrence of n beyond the first, each at that occurrence's position,
so their number is the occurrence count minus one. -/
theorem duplicate_field_counts
    (docs : List WorkspaceDocument) (d : WorkspaceDocument) (ast : LookMLFile)
    (v : ViewNode) (n : String) (hd : d ∈ docs) (hast : d.ast = some ast)
    (hv : v ∈ ast.views)
    (hk : 2 ≤ (v.fieldNodes.filter (fun f => f.name = n)).length) :
    ((analyze docs).diagnostics.filter dupP = dupDiagsOfDocs (getParsedDocs docs)) ∧
    (∃ pre post, dupDiagsOfDocs (getParsedDocs docs) = pre ++ (duplicateFieldDiags v ++ post)) ∧
    ((duplicateFieldDiags v).filter (fun dg => dg.message = dupMessage n v.name) =
      ((v.fieldNodes.filter (fun f => f.name = n)).tail).map (mkDupDiag v.name)) ∧
    ((duplicateFieldDiags v).filter (fun dg => dg.message = dupMessage n v.name)).length =
      (v.fieldNodes.filter (fun f => f.name = n)).length - 1 := by
  have hc : (duplicateFieldDiags v).filter (fun dg => dg.message = dupMessage n v.name) =
      ((v.fieldNodes.filter (fun f => f.name = n)).tail).map (mkDupDiag v.name) := by
    unfold duplicateFieldDiags
    rw [dupDiagsGo_filter_msg]
    rw [if_neg (List.not_mem_nil n)]
  refine ⟨analyze_filterDup docs, ?_, hc, ?_⟩
  · have hdp : d ∈ getParsedDocs docs := by
      refine List.mem_filter.mpr ⟨hd, ?_⟩
      rw [hast]
      rfl
    obtain ⟨p1, p2, hsplit⟩ := List.append_of_mem hdp
    obtain ⟨v1, v2, hvsplit⟩ := List.append_of_mem hv
    refine ⟨dupDiagsOfDocs p1 ++ dupDiagsOfViews v1,
      dupDiagsOfViews v2 ++ dupDiagsOfDocs p2, ?_⟩
    rw [hsplit, dupDiagsOfDocs_append]
    show _ ++ (dupDiagsOfDoc d ++ dupDiagsOfDocs p2) = _
    have hdoc : dupDiagsOfDoc d = dupDiagsOfViews v1 ++ (duplicateFieldDiags v ++ dupDiagsOfViews v2) := by
      unfold dupDiagsOfDoc
      rw [hast]
      show dupDiagsOfViews ast.views = _
      rw [hvsplit, dupDiagsOfViews_append]
      rfl
    rw [hdoc]
    simp only [List.append_assoc]
  · rw [hc, List.length_map, List.length_tail]

/-- Witness for C4: the view with two dimensions named id yields
exactly one duplicate-field diagnostic for id. -/
theorem duplicate_field_counts_witness :
    ((duplicateFieldDiags exDupView).filter
        (fun dg => dg.message = dupMessage "id" exDupView.name)).length =
      (exDupView.fieldNodes.filter (fun f => f.name = "id")).length - 1 :=
  (duplicate_field_counts [exDupDoc] exDupDoc exDupFile exDupView "id"
    (List.mem_singleton.mpr rfl) rfl (List.mem_singleton.mpr rfl) (by decide)).2.2.2

theorem parseErrorPass_skip (u : String) :
    ∀ (l : List WorkspaceDocument) (st : AnalyzerState), (∀ x ∈ l, x.uri ≠ u) →
      mapGet (parseErrorPass l st).diagnosticsByUri u = mapGet st.diagnosticsByUri u := by
  intro l
  induction l with
  | nil => intro st _; rfl
  | cons x xs ih =>
      intro st hall
      have hstep : parseErrorPass (x :: xs) st = parseErrorPass xs
          (if !x.parseResult.success && x.parseResult.error.isSome then
            pushBoth x.uri st (parseErrorDiag (x.parseResult.error.getD "")) else st) := rfl
      rw [hstep, ih _ (fun y hy => hall y (List.mem_cons_of_mem x hy))]
      cases h : (!x.parseResult.success && x.parseResult.error.isSome)
      · simp only [h, Bool.false_eq_true, if_false]
      · simp only [h, if_true]
        show mapGet (addDiagnosticForUri x.uri _ st.diagnosticsByUri) u = _
        unfold addDiagnosticForUri
        exact mapGet_mapSet_ne _ _ (hall x (List.mem_cons_self x xs))

theorem parseErrorPass_hasDiag (l : List WorkspaceDocument) :
    ∀ (st : AnalyzerState) (dg : Diagnostic), dg ∈ st.diagnostics →
      dg ∈ (parseErrorPass l st).diagnostics := by
  induction l with
  | nil => intro st dg h; exact h
  | cons x xs ih =>
      intro st dg h
      have hstep : parseErrorPass (x :: xs) st = parseErrorPass xs
          (if !x.parseResult.success && x.parseResult.error.isSome then
            pushBoth x.uri st (parseErrorDiag (x.parseResult.error.getD "")) else st) := rfl
      rw [hstep]
      refine ih _ dg ?_
      cases hc : (!x.parseResult.success && x.parseResult.error.isSome)
      · simp only [hc, Bool.false_eq_true, if_false]
        exact h
      · simp only [hc, if_true]
        exact List.mem_append_left _ h

theorem parseErrorPass_symbolsByUri (l : List WorkspaceDocument) :
    ∀ st : AnalyzerState, (parseErrorPass l st).symbolsByUri = st.symbolsByUri := by
  induction l with
  | nil => intro st; rfl
  | cons x xs ih =>
      intro st
      have hstep : parseErrorPass (x :: xs) st = parseErrorPass xs
          (if !x.parseResult.success && x.parseResult.error.isSome then
            pushBoth x.uri st (parseErrorDiag (x.parseResult.error.getD "")) else st) := rfl
      rw [hstep, ih]
      cases h : (!x.parseResult.success && x.parseResult.error.isSome)
      · simp only [h, Bool.false_eq_true, if_false]
      · simp only [h, if_true]
        rfl

theorem parseErrorPass_append (l1 l2 : List WorkspaceDocument) (st : AnalyzerState) :
    parseErrorPass (l1 ++ l2) st = parseErrorPass l2 (parseErrorPass l1 st) := by
  unfold parseErrorPass
  exact List.foldl_append _ _ _ _

theorem parseErrorPass_cons_fail (x : WorkspaceDocument) (xs : List WorkspaceDocument)
    (st : AnalyzerState) (msg : String) (hfail : x.parseResult.success = false)
    (herr : x.parseResult.error = some msg) :
    parseErrorPass (x :: xs) st = parseErrorPass xs (pushBoth x.uri st (parseErrorDiag msg)) := by
  have hstep : parseErrorPass (x :: xs) st = parseErrorPass xs
      (if !x.parseResult.success && x.parseResult.error.isSome then
        pushBoth x.uri st (parseErrorDiag (x.parseResult.error.getD "")) else st) := rfl
  rw [hstep, hfail, herr]
  rfl

theorem byUri_preserved_fold (f : AnalyzerState → WorkspaceDocument → AnalyzerState)
    (hf : ∀ st doc, StepAt doc.uri st (f st doc)) (u : String) :
    ∀ (l : List WorkspaceDocument) (st : AnalyzerState), (∀ x ∈ l, x.uri ≠ u) →
      mapGet ((l.foldl f st).diagnosticsByUri) u = mapGet st.diagnosticsByUri u := by
  intro l
  induction l with
  | nil => intro st _; rfl
  | cons x xs ih =>
      intro st hall
      rw [List.foldl_cons, ih _ (fun y hy => hall y (List.mem_cons_of_mem x hy))]
      exact (hf st x).2.2.2.2.2.2 u (fun h => hall x (List.mem_cons_self x xs) h.symm)

theorem symbolsByUri_const_fold (f : AnalyzerState → WorkspaceDocument → AnalyzerState)
    (hf : ∀ st doc, StepAt doc.uri st (f st doc)) :
    ∀ (l : List WorkspaceDocument) (st : AnalyzerState),
      (l.foldl f st).symbolsByUri = st.symbolsByUri := by
  intro l
  induction l with
  | nil => intro st; rfl
  | cons x xs ih =>
      intro st
      rw [List.foldl_cons, ih, (hf st x).2.2.2.1]

/-- C6: a document whose parse failed is stored with ast absent and the
parse error retained, contributes zero symbols to the semantic model
(its URI has no entry in symbolsByUri), and analysis emits exactly one
Error diagnostic for it: its per-URI diagnostic group is the singleton
parse-error Error at range (0,0)-(0,0) carrying the underlying parser
error message, which also appears in the flat list. -/
theorem parse_failure_isolated (docs : List WorkspaceDocument)
    (d : WorkspaceDocument) (msg : String) (hd : d ∈ docs)
    (hnodup : (docs.map (fun x => x.uri)).Nodup)
    (hfail : d.parseResult.success = false)
    (herr : d.parseResult.error = some msg) (hast : d.ast = none) :
    (storedDocument d.uri d.fileName d.content d.lastModified d.parseResult).ast = none ∧
    (storedDocument d.uri d.fileName d.content d.lastModified d.parseResult).parseResult.error = some msg ∧
    mapGet (analyze docs).diagnosticsByUri d.uri = some [parseErrorDiag msg] ∧
    mapGet (analyze docs).symbolsByUri d.uri = none ∧
    parseErrorDiag msg ∈ (analyze docs).diagnostics := by
  have hinj := List.inj_on_of_nodup_map hnodup
  have hothers : ∀ x ∈ getParsedDocs docs, x.uri ≠ d.uri := by
    intro x hx hxu
    have hxd : x ∈ docs := (List.mem_filter.mp hx).1
    have hxs : x.ast.isSome = true := (List.mem_filter.mp hx).2
    have hxeq : x = d := hinj hxd hd hxu
    rw [hxeq, hast] at hxs
    simp at hxs
  obtain ⟨l1, l2, hdocs⟩ := List.append_of_mem hd
  have hl1 : ∀ x ∈ l1, x.uri ≠ d.uri := by
    intro x hx hxu
    have hxd : x ∈ docs := by
      rw [hdocs]
      exact List.mem_append_left _ hx
    have hxeq : x = d := hinj hxd hd hxu
    subst hxeq
    rw [hdocs, List.map_append, List.map_cons] at hnodup
    exact (List.nodup_append.mp hnodup).2.2
      (List.mem_map_of_mem _ hx) (List.mem_cons_self _ _)
  have hl2 : ∀ x ∈ l2, x.uri ≠ d.uri := by
    intro x hx hxu
    have hxd : x ∈ docs := by
      rw [hdocs]
      exact List.mem_append_right _ (List.mem_cons_of_mem d hx)
    have hxeq : x = d := hinj hxd hd hxu
    subst hxeq
    rw [hdocs, List.map_append, List.map_cons] at hnodup
    exact (List.nodup_cons.mp (List.nodup_append.mp hnodup).2.1).1
      (List.mem_map_of_mem _ hx)
  have hsplit : parseErrorPass docs initialState =
      parseErrorPass l2 (pushBoth d.uri (parseErrorPass l1 initialState) (parseErrorDiag msg)) := by
    rw [hdocs, parseErrorPass_append, parseErrorPass_cons_fail d l2 _ msg hfail herr]
  have hgroup1 : mapGet (parseErrorPass docs initialState).diagnosticsByUri d.uri =
      some [parseErrorDiag msg] := by
    rw [hsplit, parseErrorPass_skip d.uri l2 _ hl2]
    show mapGet (addDiagnosticForUri d.uri _ _) d.uri = _
    unfold addDiagnosticForUri
    rw [mapGet_mapSet_self, parseErrorPass_skip d.uri l1 _ hl1]
    rfl
  have hflat1 : parseErrorDiag msg ∈ (parseErrorPass docs initialState).diagnostics := by
    rw [hsplit]
    refine parseErrorPass_hasDiag l2 _ _ ?_
    show parseErrorDiag msg ∈ (parseErrorPass l1 initialState).diagnostics ++ [parseErrorDiag msg]
    exact List.mem_append_right _ (List.mem_singleton.mpr rfl)
  have hby : mapGet (analyzeSt docs).diagnosticsByUri d.uri = some [parseErrorDiag msg] := by
    rw [analyzeSt_eq]
    rw [byUri_preserved_fold cyclicJoinDoc stepAt_cyclicJoinDoc d.uri _ _ hothers]
    rw [byUri_preserved_fold (unusedViewDoc (collectUsedViews (getParsedDocs docs)))
      (stepAt_unusedViewDoc (collectUsedViews (getParsedDocs docs))) d.uri _ _ hothers]
    rw [byUri_preserved_fold crossValidateDoc stepAt_crossValidateDoc d.uri _ _ hothers]
    rw [(pass2_fold (getParsedDocs docs) _).2.1]
    exact hgroup1
  have hsym : mapGet (analyzeSt docs).symbolsByUri d.uri = none := by
    rw [analyzeSt_eq]
    rw [symbolsByUri_const_fold cyclicJoinDoc stepAt_cyclicJoinDoc]
    rw [symbolsByUri_const_fold (unusedViewDoc (collectUsedViews (getParsedDocs docs)))
      (stepAt_unusedViewDoc (collectUsedViews (getParsedDocs docs)))]
    rw [symbolsByUri_const_fold crossValidateDoc stepAt_crossValidateDoc]
    rw [(pass2_fold (getParsedDocs docs) _).2.2.1 d.uri hothers]
    rw [parseErrorPass_symbolsByUri]
    rfl
  have hflat : parseErrorDiag msg ∈ (analyzeSt docs).diagnostics := by
    rw [analyzeSt_eq]
    refine foldl_preserve (HasDiag (parseErrorDiag msg)) cyclicJoinDoc
      (fun st x hh => hasDiag_of_stepAt (stepAt_cyclicJoinDoc st x) hh) _ _ ?_
    refine foldl_preserve (HasDiag (parseErrorDiag msg))
      (unusedViewDoc (collectUsedViews (getParsedDocs docs)))
      (fun st x hh => hasDiag_of_stepAt
        (stepAt_unusedViewDoc (collectUsedViews (getParsedDocs docs)) st x) hh) _ _ ?_
    refine foldl_preserve (HasDiag (parseErrorDiag msg)) crossValidateDoc
      (fun st x hh => hasDiag_of_stepAt (stepAt_crossValidateDoc st x) hh) _ _ ?_
    show parseErrorDiag msg ∈ ((getParsedDocs docs).foldl symbolPassDoc (parseErrorPass docs initialState)).diagnostics
    rw [(pass2_fold (getParsedDocs docs) _).1]
    exact hflat1
  refine ⟨?_, herr, ?_, ?_, ?_⟩
  · show (if d.parseResult.success then d.parseResult.ast else none) = none
    rw [hfail]
    rfl
  · show mapGet (analyzeSt docs).diagnosticsByUri d.uri = some [parseErrorDiag msg]
    exact hby
  · show mapGet (analyzeSt docs).symbolsByUri d.uri = none
    exact hsym
  · show parseErrorDiag msg ∈ (analyzeSt docs).diagnostics
    exact hflat

/-- A document whose content failed to parse: stored with no AST and
the parser error retained. -/
def exFailDoc : WorkspaceDocument :=
  { uri := "file:///bad.lkml", fileName := "bad.lkml", content := "view ",
    ast := none,
    parseResult := { success := false, ast := none, error := some "Unexpected end of input" },
    lastModified := 0 }

/-- Witness for C6: in the singleton workspace around the failed
document, the stored document has no AST, its group holds exactly the
parse-error diagnostic, it contributes no symbols, and the diagnostic
is in the flat list. -/
theorem parse_failure_isolated_witness :
    (storedDocument exFailDoc.uri exFailDoc.fileName exFailDoc.content
        exFailDoc.lastModified exFailDoc.parseResult).ast = none ∧
    (storedDocument exFailDoc.uri exFailDoc.fileName exFailDoc.content
        exFailDoc.lastModified exFailDoc.parseResult).parseResult.error =
      some "Unexpected end of input" ∧
    mapGet (analyze [exFailDoc]).diagnosticsByUri exFailDoc.uri =
      some [parseErrorDiag "Unexpected end of input"] ∧
    mapGet (analyze [exFailDoc]).symbolsByUri exFailDoc.uri = none ∧
    parseErrorDiag "Unexpected end of input" ∈ (analyze [exFailDoc]).diagnostics :=
  parse_failure_isolated [exFailDoc] exFailDoc "Unexpected end of input"
    (List.mem_singleton.mpr rfl) (by decide) rfl rfl rfl

end LookML
